import Mathlib

/-!
Verification of the binary block discovery and loading subsystem
(`asdf/_block/reader.py`): the `ReadBlock` handle, the serial scanner
`read_blocks_serially`, and the index-accelerated loader `read_blocks`.

The reader module is embedded faithfully, statement by statement.  Its
collaborators (`asdf._block.io` and `asdf.constants`) are not part of the
sources under verification, so they are modelled from the specification;
every such definition carries a doc comment starting with
`Modelled from the spec:`.

Python exceptions are embedded as an explicit error type `Err`; the
classes used by the `except` clauses of the source (`OSError`,
`ValueError`) are recovered by `Err.isOSError` / `Err.isValueError`.
Byte streams are embedded as a pure record `Fd` holding the underlying
bytes, the cursor and the closed flag; every stateful operation of the
source is a function that returns the new `Fd`.
-/

/-- Modelled from the spec: the fixed 4-byte block magic marker
(`constants.BLOCK_MAGIC`), distinct from the index marker's leading
4 bytes. -/
def BLOCK_MAGIC : List Nat := [211, 66, 76, 75]

/-- Modelled from the spec: the marker beginning the block index section
(`constants.INDEX_HEADER`); its leading 4 bytes are distinct from the
block marker. -/
def INDEX_HEADER : List Nat :=
  [35, 65, 83, 68, 70, 32, 66, 76, 79, 67, 75, 32, 73, 78, 68, 69, 88]

/-- Modelled from the spec: the header flag bit marking a streamed block
(`constants.BLOCK_FLAG_STREAMED`, bit 0). -/
def BLOCK_FLAG_STREAMED : Nat := 1

/-- The errors raised by the embedded code.  Each constructor corresponds
to one `raise` site (or to a Python exception class raised implicitly):
`closedFile` is the `OSError` from `ReadBlock.load` on a dead source,
`invalidBytes` the `OSError` from the serial scanner, `invalidBlockMagic`
the `OSError` from the index spot check, `formatError` the `OSError`
raised by the block codec on structurally invalid input,
`checksumMismatch` the `ValueError` from the payload accessor,
`indexError` Python's `IndexError`, and `fuelExhausted` marks the
unreachable exhaustion of the loop fuel of the embedding. -/
inductive Err where
  | closedFile
  | invalidBytes
  | invalidBlockMagic
  | formatError
  | checksumMismatch
  | indexError
  | fuelExhausted
deriving DecidableEq

/-- Whether the error is an `OSError` in the source (caught by
`except OSError`). -/
def Err.isOSError : Err → Bool
  | .closedFile => true
  | .invalidBytes => true
  | .invalidBlockMagic => true
  | .formatError => true
  | _ => false

/-- Whether the error is a `ValueError` in the source. -/
def Err.isValueError : Err → Bool
  | .checksumMismatch => true
  | _ => false

/-- The Byte Source: underlying bytes, cursor position, seekability and
the closed flag.  Operations mirror the capability set used by the
reader: `read`, `seek`, `tell`, `seekable`, `is_closed`. -/
structure Fd where
  data : List Nat
  pos : Nat
  seekable : Bool
  closed : Bool
deriving DecidableEq

/-- `fd.read(n)`: returns up to `n` bytes from the cursor and advances
the cursor by the number of bytes actually returned. -/
def Fd.read (fd : Fd) (n : Nat) : List Nat × Fd :=
  ((fd.data.drop fd.pos).take n,
    ⟨fd.data, fd.pos + ((fd.data.drop fd.pos).take n).length, fd.seekable, fd.closed⟩)

/-- `fd.seek(p)` (absolute). -/
def Fd.seek (fd : Fd) (p : Nat) : Fd :=
  ⟨fd.data, p, fd.seekable, fd.closed⟩

/-- `fd.tell()`. -/
def Fd.tell (fd : Fd) : Nat :=
  fd.pos

/-- The fixed-layout block header (following the magic marker). -/
structure BlockHeader where
  flags : Nat
  compression : Nat
  allocated_size : Nat
  used_size : Nat
  data_size : Nat
  checksum : Nat
deriving DecidableEq

/-- The payload slot of a handle: either bytes read eagerly, or the
deferred producer installed by a lazy read.  The producer of the source
is a callable; calling it yields the bytes it was built over, so the
model stores those bytes in the `deferredBytes` constructor. -/
inductive BlockData where
  | bytes (bs : List Nat)
  | deferredBytes (bs : List Nat)
deriving DecidableEq

/-- Modelled from the spec: `bio.calculate_block_checksum`, a
deterministic fixed-width digest over the decompressed payload bytes
(here: the byte sum reduced to 16 bits). -/
def calculate_block_checksum (bs : List Nat) : Nat :=
  bs.sum % 65536

/-- Modelled from the spec: `bio.read_block(fd, offset, memmap, lazy_load)`.
If `offset` is omitted it reads from the current position (the caller has
already consumed the magic marker).  The 10-byte header holds `flags` and
`compression` (one byte each) and `allocated_size`, `used_size`,
`data_size`, `checksum` (two big-endian bytes each).  Structurally
invalid input (truncated header, unknown compression, `used_size`
exceeding `allocated_size`, or a payload region extending past the end of
the stream) fails with `FormatError`.  Only the identity compression
(code 0) exists in the model.  A streamed block's payload runs to the end
of the stream.  When `lazy_load` is set the payload is represented as a
deferred producer; the cursor is left after the allocated region (at the
end of the stream for a streamed block). -/
def read_block (fd0 : Fd) (offset : Option Nat) (memmap lazy_load : Bool) :
    Except Err (Nat × BlockHeader × Nat × BlockData) × Fd :=
  let off := offset.getD fd0.tell
  let fd := fd0.seek off
  match fd.read 10 with
  | ([f, c, a1, a0, u1, u0, s1, s0, k1, k0], fd1) =>
    let h : BlockHeader :=
      ⟨f, c, a1 * 256 + a0, u1 * 256 + u0, s1 * 256 + s0, k1 * 256 + k0⟩
    let data_offset := off + 10
    if c ≠ 0 then (.error .formatError, fd1)
    else if h.allocated_size < h.used_size then (.error .formatError, fd1)
    else if h.flags &&& BLOCK_FLAG_STREAMED ≠ 0 then
      let payload := fd1.data.drop data_offset
      (.ok (off, h, data_offset,
        if lazy_load then .deferredBytes payload else .bytes payload),
       fd1.seek fd1.data.length)
    else if fd1.data.length < data_offset + h.allocated_size then
      (.error .formatError, fd1)
    else
      let payload := (fd1.data.drop data_offset).take h.used_size
      (.ok (off, h, data_offset,
        if lazy_load then .deferredBytes payload else .bytes payload),
       fd1.seek (data_offset + h.allocated_size))
  | (_, fd1) => (.error .formatError, fd1)

/-- Whether `pat` occurs in `data` at position `i` (all of `pat` present). -/
def matchesAt (data pat : List Nat) (i : Nat) : Bool :=
  decide ((data.drop i).take pat.length = pat)

/-- Last position `≤ n` and `≥ lo` at which the index marker occurs. -/
def lastIndexMarker (data : List Nat) (lo : Nat) : Nat → Option Nat
  | 0 => if lo ≤ 0 ∧ matchesAt data INDEX_HEADER 0 = true then some 0 else none
  | n + 1 =>
    if lo ≤ n + 1 ∧ matchesAt data INDEX_HEADER (n + 1) = true then some (n + 1)
    else lastIndexMarker data lo n

/-- Modelled from the spec: `bio.find_block_index(fd, offset)` searches
the tail of the stream for the index marker, returning the last position
at or after `offset` where it occurs; absence is not an error.  The
cursor is left at the end of the stream by the search. -/
def find_block_index (fd : Fd) (offset : Nat) : Option Nat × Fd :=
  (lastIndexMarker fd.data offset fd.data.length, fd.seek fd.data.length)

/-- Decode a flat list of big-endian byte pairs into offsets. -/
def decodeOffsets : List Nat → List Nat
  | hi :: lo :: rest => (hi * 256 + lo) :: decodeOffsets rest
  | _ => []

/-- Modelled from the spec: `bio.read_block_index(fd, offset)` reads the
structure at `offset`: the index marker, a one-byte entry count, then one
big-endian byte pair per entry.  It fails with `FormatError` (an
`OSError`) if the bytes there are not a well-formed list of offsets. -/
def read_block_index (fd0 : Fd) (offset : Nat) : Except Err (List Nat) × Fd :=
  let fd := fd0.seek offset
  match fd.read INDEX_HEADER.length with
  | (hdr, fd1) =>
    if hdr ≠ INDEX_HEADER then (.error .formatError, fd1)
    else
      match fd1.read 1 with
      | ([n], fd2) =>
        match fd2.read (2 * n) with
        | (obytes, fd3) =>
          if obytes.length = 2 * n then (.ok (decodeOffsets obytes), fd3)
          else (.error .formatError, fd3)
      | (_, fd2) => (.error .formatError, fd2)

/-- The Block Handle (`ReadBlock`).  `headerOpt`, `dataOffset` and
`dataOpt` embed the source's `_header`, `data_offset` and `_data` slots
(`none` = Python `None`); `cachedData` embeds `_cached_data`.  The
weak reference `_fd` is embedded by passing the referenced `Fd` together
with an `alive` flag to each operation. -/
structure ReadBlock where
  offset : Nat
  memmap : Bool
  lazy_load : Bool
  validate_checksum : Bool
  headerOpt : Option BlockHeader
  dataOffset : Option Nat
  dataOpt : Option BlockData
  cachedData : Option (List Nat)
deriving DecidableEq

/-- `ReadBlock.loaded`: the `_data` slot has been populated. -/
def ReadBlock.loaded (blk : ReadBlock) : Bool :=
  blk.dataOpt.isSome

/-- `ReadBlock.load()`: no-op if already loaded; fails when the weak
reference is dead or the source closed; otherwise records the position,
reads the block at this handle's offset via the codec and restores the
position.  As in the source, an error raised by the codec propagates
before the position is restored. -/
def ReadBlock.load (blk : ReadBlock) (alive : Bool) (fd : Fd) :
    Except Err ReadBlock × Fd :=
  if blk.loaded then (.ok blk, fd)
  else if alive = false ∨ fd.closed = true then (.error .closedFile, fd)
  else
    let position := fd.tell
    match read_block fd (some blk.offset) blk.memmap blk.lazy_load with
    | (.error e, fd1) => (.error e, fd1)
    | (.ok (_, h, doff, d), fd1) =>
      (.ok ⟨blk.offset, blk.memmap, blk.lazy_load, blk.validate_checksum,
            some h, some doff, some d, blk.cachedData⟩,
       fd1.seek position)

/-- `ReadBlock.__init__`: stores the given slots and eagerly loads unless
`lazy_load` is set (a no-op when the data slot was provided). -/
def ReadBlock.init (offset : Nat) (memmap lazy_load validate_checksum : Bool)
    (headerOpt : Option BlockHeader) (dataOffset : Option Nat)
    (dataOpt : Option BlockData) (alive : Bool) (fd : Fd) :
    Except Err ReadBlock × Fd :=
  let blk : ReadBlock :=
    ⟨offset, memmap, lazy_load, validate_checksum, headerOpt, dataOffset, dataOpt, none⟩
  if lazy_load then (.ok blk, fd) else blk.load alive fd

/-- Resolving the `_data` slot: calling the deferred producer if the slot
holds one, otherwise taking the bytes directly.  (The `none` arm is
unreachable after a successful load.) -/
def ReadBlock.resolvedData (blk : ReadBlock) : List Nat :=
  match blk.dataOpt with
  | some (.bytes bs) => bs
  | some (.deferredBytes bs) => bs
  | none => []

/-- The `ReadBlock.data` property: loads if needed, resolves the payload,
and if checksum validation is pending compares the digest of the resolved
bytes with the header's checksum — `ValueError` on mismatch, and on
success the pending flag is cleared so validation is never repeated.
(The `none` header arm is unreachable for handles produced by this
module: `load` always installs the header together with the data.) -/
def ReadBlock.getData (blk0 : ReadBlock) (alive : Bool) (fd0 : Fd) :
    Except Err (List Nat × ReadBlock) × Fd :=
  match blk0.load alive fd0 with
  | (.error e, fd) => (.error e, fd)
  | (.ok blk, fd) =>
    let d := blk.resolvedData
    if blk.validate_checksum then
      match blk.headerOpt with
      | none => (.error .formatError, fd)
      | some h =>
        if calculate_block_checksum d ≠ h.checksum then (.error .checksumMismatch, fd)
        else (.ok (d, ⟨blk.offset, blk.memmap, blk.lazy_load, false,
                       blk.headerOpt, blk.dataOffset, blk.dataOpt, blk.cachedData⟩), fd)
    else (.ok (d, blk), fd)

/-- Forcing a handle's payload through the `data` property (with a live
source) and observing only the bytes or the error. -/
def forcedData (blk : ReadBlock) (fd : Fd) : Except Err (List Nat) :=
  match blk.getData true fd with
  | (.ok (d, _), _) => .ok d
  | (.error e, _) => .error e

/-- Python `bytes.strip(b"\x00")`: remove leading and trailing zero bytes. -/
def stripZeros (l : List Nat) : List Nat :=
  ((l.dropWhile (· == 0)).reverse.dropWhile (· == 0)).reverse

/-- `buff += fd.read(magic_len - len(buff))` of the serial scanner. -/
def fill_buff (buff : List Nat) (fd : Fd) : List Nat × Fd :=
  (buff ++ (fd.read (BLOCK_MAGIC.length - buff.length)).1,
   (fd.read (BLOCK_MAGIC.length - buff.length)).2)

/-- The `while True` loop of `read_blocks_serially`, with fuel for
termination (the fuel passed by the wrapper always suffices, as each
iteration either stops or consumes at least one byte). -/
def read_blocks_serially_loop (memmap lazy_load validate_checksums : Bool) :
    Nat → List ReadBlock → List Nat → Bool → Fd → Except Err (List ReadBlock) × Fd
  | 0, _, _, _, fd => (.error .fuelExhausted, fd)
  | fuel + 1, blocks, buff0, after_magic, fd0 =>
    let buff := if after_magic then buff0 else (fill_buff buff0 fd0).1
    let fd := if after_magic then fd0 else (fill_buff buff0 fd0).2
    if after_magic = false ∧ buff.length < BLOCK_MAGIC.length then (.ok blocks, fd)
    else if buff = INDEX_HEADER.take BLOCK_MAGIC.length then (.ok blocks, fd)
    else if after_magic = true ∨ buff = BLOCK_MAGIC then
      match read_block fd none memmap lazy_load with
      | (.error e, fd1) => (.error e, fd1)
      | (.ok (off, h, doff, d), fd1) =>
        match ReadBlock.init off memmap lazy_load validate_checksums
            (some h) (some doff) (some d) true fd1 with
        | (.error e, fd2) => (.error e, fd2)
        | (.ok blk, fd2) =>
          if h.flags &&& BLOCK_FLAG_STREAMED ≠ 0 then (.ok (blocks ++ [blk]), fd2)
          else read_blocks_serially_loop memmap lazy_load validate_checksums
            fuel (blocks ++ [blk]) [] false fd2
    else
      if blocks.length ≠ 0 ∨ buff.headD 0 ≠ 0 then (.error .invalidBytes, fd)
      else read_blocks_serially_loop memmap lazy_load validate_checksums
        fuel blocks (stripZeros buff) false fd

/-- `read_blocks_serially(fd, memmap, lazy_load, validate_checksums,
after_magic)`: the Serial Scanner. -/
def read_blocks_serially (fd : Fd) (memmap lazy_load validate_checksums after_magic : Bool) :
    Except Err (List ReadBlock) × Fd :=
  read_blocks_serially_loop memmap lazy_load validate_checksums
    (fd.data.length + 1) [] [] after_magic fd

/-- Python list subscription `l[i]` with a possibly negative index:
the normalized position, or `IndexError` when out of range. -/
def pyIndexNat (len : Nat) (i : Int) : Except Err Nat :=
  let j : Int := if i < 0 then (len : Int) + i else i
  if 0 ≤ j ∧ j < (len : Int) then .ok j.toNat else .error .indexError

/-- One iteration of the spot-check loop of `read_blocks`
(`for index in (0, -1)`): seek to the indexed offset, require the block
magic there, and load the corresponding handle in place. -/
def spot_check_at (block_index : List Nat) (blocks : List ReadBlock) (i : Int)
    (fd0 : Fd) : Except Err (List ReadBlock) × Fd :=
  match pyIndexNat block_index.length i with
  | .error e => (.error e, fd0)
  | .ok j =>
    match block_index.get? j with
    | none => (.error .indexError, fd0)
    | some off =>
      match (fd0.seek off).read BLOCK_MAGIC.length with
      | (buff, fd1) =>
        if buff ≠ BLOCK_MAGIC then (.error .invalidBlockMagic, fd1)
        else
          match pyIndexNat blocks.length i with
          | .error e => (.error e, fd1)
          | .ok jb =>
            match blocks.get? jb with
            | none => (.error .indexError, fd1)
            | some blk =>
              match blk.load true fd1 with
              | (.error e, fd2) => (.error e, fd2)
              | (.ok blk1, fd2) => (.ok (blocks.set jb blk1), fd2)

/-- The whole spot-check loop: first entry, then last entry. -/
def spot_check (block_index : List Nat) (blocks : List ReadBlock) (fd0 : Fd) :
    Except Err (List ReadBlock) × Fd :=
  match spot_check_at block_index blocks 0 fd0 with
  | (.error e, fd) => (.error e, fd)
  | (.ok blocks1, fd) => spot_check_at block_index blocks1 (-1) fd

/-- `read_blocks(fd, memmap, lazy_load, validate_checksums, after_magic)`:
the Loader Facade with the Index-Accelerated path.  The handles built
from the index are created unloaded (this branch runs only with
`lazy_load` set, so their `__init__` performs no load).  In the fallback
after a failed spot check the source passes only four positional
arguments to `read_blocks_serially`, so `after_magic` is received in the
`validate_checksums` position and `after_magic` itself defaults to
`False`. -/
def read_blocks (fd : Fd) (memmap lazy_load validate_checksums after_magic : Bool) :
    Except Err (List ReadBlock) × Fd :=
  if lazy_load = false ∨ fd.seekable = false then
    read_blocks_serially fd memmap lazy_load validate_checksums after_magic
  else
    let starting_offset := fd.tell
    match find_block_index fd starting_offset with
    | (none, fd1) =>
      read_blocks_serially (fd1.seek starting_offset) memmap lazy_load
        validate_checksums after_magic
    | (some index_offset, fd1) =>
      match read_block_index fd1 index_offset with
      | (.error e, fd2) =>
        if e.isOSError then
          read_blocks_serially (fd2.seek starting_offset) memmap lazy_load
            validate_checksums after_magic
        else (.error e, fd2)
      | (.ok block_index, fd2) =>
        let blocks := block_index.map fun o =>
          (⟨o + BLOCK_MAGIC.length, memmap, lazy_load, validate_checksums,
            none, none, none, none⟩ : ReadBlock)
        match spot_check block_index blocks fd2 with
        | (.ok checked, fd3) => (.ok checked, fd3)
        | (.error e, fd3) =>
          if e.isOSError = true ∨ e.isValueError = true then
            read_blocks_serially (fd3.seek starting_offset) memmap lazy_load
              after_magic false
          else (.error e, fd3)

/-- Two big-endian bytes of a 16-bit value. -/
def encodeU16 (n : Nat) : List Nat :=
  [n / 256, n % 256]

/-- The header a well-formed uncompressed, non-streamed block of payload
`p` carries: no flags, identity compression, all three sizes equal to
the payload length, and the payload's checksum. -/
def expectedHeader (p : List Nat) : BlockHeader :=
  ⟨0, 0, p.length, p.length, p.length, calculate_block_checksum p⟩

/-- The byte encoding of a block header. -/
def encodeHeader (h : BlockHeader) : List Nat :=
  [h.flags, h.compression] ++ encodeU16 h.allocated_size ++ encodeU16 h.used_size ++
    encodeU16 h.data_size ++ encodeU16 h.checksum

/-- One well-formed block on disk: magic, header, payload. -/
def blockBytes (p : List Nat) : List Nat :=
  BLOCK_MAGIC ++ encodeHeader (expectedHeader p) ++ p

/-- Consecutive well-formed blocks on disk. -/
def blocksBytes : List (List Nat) → List Nat
  | [] => []
  | p :: ps => blockBytes p ++ blocksBytes ps

/-- The magic-marker positions of consecutive blocks laid out from `base`. -/
def blockOffsetsFrom (base : Nat) : List (List Nat) → List Nat
  | [] => []
  | p :: ps => base :: blockOffsetsFrom (base + (blockBytes p).length) ps

/-- Byte encoding of a list of index entries. -/
def encodeOffsets : List Nat → List Nat
  | [] => []
  | o :: rest => encodeU16 o ++ encodeOffsets rest

/-- The on-disk block index: marker, entry count, entries. -/
def indexBytes (offs : List Nat) : List Nat :=
  INDEX_HEADER ++ ([offs.length] ++ encodeOffsets offs)

/-- A well-formed stream: consecutive blocks followed by a valid trailing
index of their marker positions. -/
def mkStream (ps : List (List Nat)) : List Nat :=
  blocksBytes ps ++ indexBytes (blockOffsetsFrom 0 ps)

/-- The loaded handle the reader produces for the block of payload `p`
whose magic marker sits at `o`. -/
def expectedBlock (o : Nat) (p : List Nat) (memmap lazy_load validate : Bool) : ReadBlock :=
  ⟨o + BLOCK_MAGIC.length, memmap, lazy_load, validate,
   some (expectedHeader p), some (o + 14),
   some (if lazy_load then .deferredBytes p else .bytes p), none⟩

/-- The loaded handles of consecutive blocks laid out from `base`. -/
def expectedBlocks (base : Nat) (memmap lazy_load validate : Bool) :
    List (List Nat) → List ReadBlock
  | [] => []
  | p :: ps => expectedBlock base p memmap lazy_load validate ::
      expectedBlocks (base + (blockBytes p).length) memmap lazy_load validate ps

/-- The unloaded handle the index path creates for a marker position `o`. -/
def unloadedBlock (o : Nat) (memmap validate : Bool) : ReadBlock :=
  ⟨o + BLOCK_MAGIC.length, memmap, true, validate, none, none, none, none⟩

/-! ### Elementary facts used throughout -/

theorem drop_add (S : List Nat) (m n : Nat) : S.drop (m + n) = (S.drop m).drop n :=
  (List.drop_drop n m S).symm

theorem read_exact (S a b : List Nat) (pos n : Nat) (sk cl : Bool)
    (h : S.drop pos = a ++ b) (hn : a.length = n) :
    Fd.read ⟨S, pos, sk, cl⟩ n = (a, ⟨S, pos + n, sk, cl⟩) := by
  unfold Fd.read
  simp only [h]
  rw [← hn, List.take_left]

theorem encodeHeader_expected (p : List Nat) :
    encodeHeader (expectedHeader p) =
      [0, 0, p.length / 256, p.length % 256, p.length / 256, p.length % 256,
       p.length / 256, p.length % 256,
       calculate_block_checksum p / 256, calculate_block_checksum p % 256] := rfl

theorem encodeHeader_expected_length (p : List Nat) :
    (encodeHeader (expectedHeader p)).length = 10 := rfl

theorem blockBytes_eq (p : List Nat) :
    blockBytes p = BLOCK_MAGIC ++ (encodeHeader (expectedHeader p) ++ p) := by
  unfold blockBytes
  rw [List.append_assoc]

theorem blockBytes_length (p : List Nat) : (blockBytes p).length = 14 + p.length := by
  simp [blockBytes, encodeHeader_expected, BLOCK_MAGIC]
  omega

theorem stream_drop4 (S R p : List Nat) (pos : Nat)
    (hS : S.drop pos = blockBytes p ++ R) :
    S.drop (pos + 4) = encodeHeader (expectedHeader p) ++ (p ++ R) := by
  rw [drop_add, hS, blockBytes_eq, List.append_assoc]
  have h4 : (4 : Nat) = BLOCK_MAGIC.length := rfl
  rw [h4, List.drop_left]
  rw [List.append_assoc]

theorem stream_drop14 (S R p : List Nat) (pos : Nat)
    (hS : S.drop pos = blockBytes p ++ R) :
    S.drop (pos + 14) = p ++ R := by
  have h : pos + 14 = (pos + 4) + 10 := by omega
  rw [h, drop_add, stream_drop4 S R p pos hS]
  have h10 : (10 : Nat) = (encodeHeader (expectedHeader p)).length := rfl
  rw [h10, List.drop_left]

theorem stream_len (S R p : List Nat) (pos : Nat)
    (hS : S.drop pos = blockBytes p ++ R) :
    S.length - pos = 14 + p.length + R.length := by
  have := congrArg List.length hS
  simp only [List.length_drop, List.length_append, blockBytes_length] at this
  omega

/-! ### The codec on a well-formed block -/

theorem read_block_generated (S R p : List Nat) (pos q : Nat) (sk cl : Bool)
    (offs : Option Nat) (memmap lazy_load : Bool)
    (hoff : offs.getD q = pos + 4)
    (hS : S.drop pos = blockBytes p ++ R) :
    read_block ⟨S, q, sk, cl⟩ offs memmap lazy_load =
      (.ok (pos + 4, expectedHeader p, pos + 14,
        if lazy_load then .deferredBytes p else .bytes p),
       ⟨S, pos + 14 + p.length, sk, cl⟩) := by
  have h4 := stream_drop4 S R p pos hS
  have h14 := stream_drop14 S R p pos hS
  have hlen := stream_len S R p pos hS
  have hread : Fd.read ⟨S, pos + 4, sk, cl⟩ 10 =
      (encodeHeader (expectedHeader p), ⟨S, (pos + 4) + 10, sk, cl⟩) :=
    read_exact S _ (p ++ R) (pos + 4) 10 sk cl h4 (encodeHeader_expected_length p)
  unfold read_block
  simp only [Fd.tell, hoff, Fd.seek, hread, encodeHeader_expected]
  have hcomp : ¬ ((0 : Nat) ≠ 0) := by omega
  have hdiv1 : p.length / 256 * 256 + p.length % 256 = p.length := by omega
  have hdiv2 : calculate_block_checksum p / 256 * 256 + calculate_block_checksum p % 256 =
      calculate_block_checksum p := by omega
  simp only [hdiv1, hdiv2, hcomp, if_false]
  have hused : ¬ (p.length < p.length) := by omega
  have hflag : ¬ ((0 : Nat) &&& BLOCK_FLAG_STREAMED ≠ 0) := by decide
  simp only [hused, hflag, if_false]
  have htrunc : ¬ (S.length < pos + 4 + 10 + p.length) := by omega
  simp only [htrunc, if_false]
  have e1 : pos + 4 + 10 = pos + 14 := by omega
  rw [e1, h14, List.take_left]
  simp only [Fd.seek, expectedHeader]

/-! ### Handle-level lemmas -/

theorem expectedBlock_loaded (o : Nat) (p : List Nat) (m l v : Bool) :
    (expectedBlock o p m l v).loaded = true := by
  cases l <;> rfl

theorem load_of_loaded (blk : ReadBlock) (alive : Bool) (fd : Fd)
    (h : blk.loaded = true) : blk.load alive fd = (.ok blk, fd) := by
  unfold ReadBlock.load
  simp [h]

theorem init_with_data (offset : Nat) (m l v : Bool) (h : BlockHeader)
    (doff : Nat) (d : BlockData) (alive : Bool) (fd : Fd) :
    ReadBlock.init offset m l v (some h) (some doff) (some d) alive fd =
      (.ok ⟨offset, m, l, v, some h, some doff, some d, none⟩, fd) := by
  unfold ReadBlock.init
  cases l
  · exact load_of_loaded ⟨offset, m, false, v, some h, some doff, some d, none⟩ alive fd rfl
  · rfl

theorem load_unloaded_generated (S R p : List Nat) (o q : Nat) (sk m v : Bool)
    (hS : S.drop o = blockBytes p ++ R) :
    (unloadedBlock o m v).load true ⟨S, q, sk, false⟩ =
      (.ok (expectedBlock o p m true v), ⟨S, q, sk, false⟩) := by
  have hrb := read_block_generated S R p o q sk false (some (o + 4)) m true rfl hS
  have hb4 : o + BLOCK_MAGIC.length = o + 4 := rfl
  simp only [ReadBlock.load, unloadedBlock, ReadBlock.loaded, Option.isSome,
    Bool.false_eq_true, if_false, Fd.tell, hb4, hrb, expectedBlock]
  simp [Fd.seek]

theorem getData_expected (o : Nat) (p : List Nat) (m l v : Bool) (alive : Bool) (fd : Fd) :
    (expectedBlock o p m l v).getData alive fd =
      (.ok (p, expectedBlock o p m l false), fd) := by
  have hload := load_of_loaded (expectedBlock o p m l v) alive fd (expectedBlock_loaded o p m l v)
  have hres : (expectedBlock o p m l v).resolvedData = p := by
    cases l <;> rfl
  unfold ReadBlock.getData
  rw [hload]
  simp only [hres]
  cases v
  · simp [expectedBlock]
  · have hck : calculate_block_checksum p = (expectedHeader p).checksum := rfl
    simp [expectedBlock, hck]

theorem forcedData_expected (o : Nat) (p : List Nat) (m l v : Bool) (fd : Fd) :
    forcedData (expectedBlock o p m l v) fd = .ok p := by
  unfold forcedData
  rw [getData_expected]

theorem getData_unloaded_generated (S R p : List Nat) (o q : Nat) (sk m v : Bool)
    (hS : S.drop o = blockBytes p ++ R) :
    (unloadedBlock o m v).getData true ⟨S, q, sk, false⟩ =
      (expectedBlock o p m true v).getData true ⟨S, q, sk, false⟩ := by
  unfold ReadBlock.getData
  rw [load_unloaded_generated S R p o q sk m v hS,
    load_of_loaded (expectedBlock o p m true v) true _ (expectedBlock_loaded o p m true v)]

theorem forcedData_unloaded (S R p : List Nat) (o q : Nat) (sk m v : Bool)
    (hS : S.drop o = blockBytes p ++ R) :
    forcedData (unloadedBlock o m v) ⟨S, q, sk, false⟩ = .ok p := by
  unfold forcedData
  rw [getData_unloaded_generated S R p o q sk m v hS, getData_expected]

/-! ### Step lemmas for the serial scanner loop -/

theorem loop_succ_eq (memmap lazy_load validate_checksums : Bool) (fuel : Nat)
    (blocks : List ReadBlock) (buff0 : List Nat) (after_magic : Bool) (fd0 : Fd) :
    read_blocks_serially_loop memmap lazy_load validate_checksums (fuel + 1)
        blocks buff0 after_magic fd0 =
      (let buff := if after_magic then buff0 else (fill_buff buff0 fd0).1
       let fd := if after_magic then fd0 else (fill_buff buff0 fd0).2
       if after_magic = false ∧ buff.length < BLOCK_MAGIC.length then (.ok blocks, fd)
       else if buff = INDEX_HEADER.take BLOCK_MAGIC.length then (.ok blocks, fd)
       else if after_magic = true ∨ buff = BLOCK_MAGIC then
         match read_block fd none memmap lazy_load with
         | (.error e, fd1) => (.error e, fd1)
         | (.ok (off, h, doff, d), fd1) =>
           match ReadBlock.init off memmap lazy_load validate_checksums
               (some h) (some doff) (some d) true fd1 with
           | (.error e, fd2) => (.error e, fd2)
           | (.ok blk, fd2) =>
             if h.flags &&& BLOCK_FLAG_STREAMED ≠ 0 then (.ok (blocks ++ [blk]), fd2)
             else read_blocks_serially_loop memmap lazy_load validate_checksums
               fuel (blocks ++ [blk]) [] false fd2
       else
         if blocks.length ≠ 0 ∨ buff.headD 0 ≠ 0 then (.error .invalidBytes, fd)
         else read_blocks_serially_loop memmap lazy_load validate_checksums
           fuel blocks (stripZeros buff) false fd) := rfl

theorem loop_step_index (m l v : Bool) (fuel : Nat) (blocks : List ReadBlock)
    (S : List Nat) (pos : Nat) (sk cl : Bool)
    (h : (S.drop pos).take 4 = INDEX_HEADER.take 4) :
    read_blocks_serially_loop m l v (fuel + 1) blocks [] false ⟨S, pos, sk, cl⟩ =
      (.ok blocks, ⟨S, pos + 4, sk, cl⟩) := by
  have hb : (4 : Nat) = BLOCK_MAGIC.length := rfl
  unfold read_blocks_serially_loop fill_buff Fd.read
  simp only [List.length_nil, Nat.sub_zero, List.nil_append, ← hb, h]
  have hlen : (INDEX_HEADER.take 4).length = 4 := rfl
  simp [hlen]

theorem loop_step_short (m l v : Bool) (fuel : Nat) (blocks : List ReadBlock)
    (buff0 S : List Nat) (pos : Nat) (sk cl : Bool)
    (hb : buff0.length < 4)
    (hshort : S.length - pos < 4 - buff0.length) :
    read_blocks_serially_loop m l v (fuel + 1) blocks buff0 false ⟨S, pos, sk, cl⟩ =
      (.ok blocks, ⟨S, pos + (S.length - pos), sk, cl⟩) := by
  have hbm : BLOCK_MAGIC.length = 4 := rfl
  have htake : ((S.drop pos).take (4 - buff0.length)).length = S.length - pos := by
    simp only [List.length_take, List.length_drop]
    omega
  have hcond : (false = false) ∧
      (buff0 ++ (S.drop pos).take (4 - buff0.length)).length < 4 :=
    ⟨rfl, by simp only [List.length_append, htake]; omega⟩
  unfold read_blocks_serially_loop fill_buff Fd.read
  simp only [hbm, Bool.false_eq_true, if_false, eq_self_iff_true, true_and]
  rw [if_pos hcond.2, htake]

theorem loop_step_block (m l v : Bool) (fuel : Nat) (blocks : List ReadBlock)
    (S : List Nat) (pos : Nat) (sk cl : Bool)
    (off doff : Nat) (h : BlockHeader) (d : BlockData) (fd2 : Fd)
    (hmagic : (S.drop pos).take 4 = BLOCK_MAGIC)
    (hrb : read_block ⟨S, pos + 4, sk, cl⟩ none m l = (.ok (off, h, doff, d), fd2)) :
    read_blocks_serially_loop m l v (fuel + 1) blocks [] false ⟨S, pos, sk, cl⟩ =
      (if h.flags &&& BLOCK_FLAG_STREAMED ≠ 0 then
        (.ok (blocks ++ [⟨off, m, l, v, some h, some doff, some d, none⟩]), fd2)
      else read_blocks_serially_loop m l v fuel
        (blocks ++ [⟨off, m, l, v, some h, some doff, some d, none⟩]) [] false fd2) := by
  have hbm : BLOCK_MAGIC.length = 4 := rfl
  have hnotidx : ¬ (BLOCK_MAGIC = INDEX_HEADER.take 4) := by decide
  have hmlen : ¬ ((4 : Nat) < 4) := by omega
  rw [loop_succ_eq]
  unfold fill_buff Fd.read
  simp only [hbm, Bool.false_eq_true, if_false, List.length_nil, Nat.sub_zero,
    List.nil_append, hmagic, hnotidx, hmlen, eq_self_iff_true, true_and, and_false,
    false_and, false_or, or_true, if_true, if_false]
  rw [hrb]
  simp only [init_with_data]

theorem stream_take_magic (S R p : List Nat) (pos : Nat)
    (hS : S.drop pos = blockBytes p ++ R) :
    (S.drop pos).take 4 = BLOCK_MAGIC := by
  rw [hS, blockBytes_eq, List.append_assoc]
  have h4 : (4 : Nat) = BLOCK_MAGIC.length := rfl
  rw [h4, List.take_left]

theorem loop_step_invalid (m l v : Bool) (fuel : Nat) (blocks : List ReadBlock)
    (S : List Nat) (pos : Nat) (sk cl : Bool)
    (hfull : 4 ≤ S.length - pos)
    (hnotidx : (S.drop pos).take 4 ≠ INDEX_HEADER.take 4)
    (hnotmagic : (S.drop pos).take 4 ≠ BLOCK_MAGIC)
    (hbad : blocks.length ≠ 0 ∨ ((S.drop pos).take 4).headD 0 ≠ 0) :
    read_blocks_serially_loop m l v (fuel + 1) blocks [] false ⟨S, pos, sk, cl⟩ =
      (.error .invalidBytes, ⟨S, pos + 4, sk, cl⟩) := by
  have hbm : BLOCK_MAGIC.length = 4 := rfl
  have hlen : ((S.drop pos).take 4).length = 4 := by
    simp only [List.length_take, List.length_drop]
    omega
  rw [loop_succ_eq]
  unfold fill_buff Fd.read
  simp only [hbm, Bool.false_eq_true, if_false, List.length_nil, Nat.sub_zero,
    List.nil_append, hlen, eq_self_iff_true, true_and, false_and, false_or,
    Nat.lt_irrefl, if_neg hnotidx, if_neg hnotmagic]
  rw [if_pos hbad]

theorem loop_step_padding (m l v : Bool) (fuel : Nat)
    (S : List Nat) (pos : Nat) (sk cl : Bool)
    (hfull : 4 ≤ S.length - pos)
    (hnotidx : (S.drop pos).take 4 ≠ INDEX_HEADER.take 4)
    (hnotmagic : (S.drop pos).take 4 ≠ BLOCK_MAGIC)
    (hzero : ((S.drop pos).take 4).headD 0 = 0) :
    read_blocks_serially_loop m l v (fuel + 1) [] [] false ⟨S, pos, sk, cl⟩ =
      read_blocks_serially_loop m l v fuel [] (stripZeros ((S.drop pos).take 4))
        false ⟨S, pos + 4, sk, cl⟩ := by
  have hbm : BLOCK_MAGIC.length = 4 := rfl
  have hlen : ((S.drop pos).take 4).length = 4 := by
    simp only [List.length_take, List.length_drop]
    omega
  rw [loop_succ_eq]
  unfold fill_buff Fd.read
  simp only [hbm, Bool.false_eq_true, if_false, List.length_nil, Nat.sub_zero,
    List.nil_append, hlen, eq_self_iff_true, true_and, false_and, false_or,
    if_neg hnotidx, if_neg hnotmagic, hzero, List.length_nil, ne_eq]
  simp

theorem loop_step_block_buff (m l v : Bool) (fuel : Nat) (blocks : List ReadBlock)
    (buff0 S : List Nat) (pos : Nat) (sk cl : Bool)
    (off doff : Nat) (h : BlockHeader) (d : BlockData) (fd2 : Fd)
    (hb : buff0.length < 4)
    (hlong : 4 - buff0.length ≤ S.length - pos)
    (hmagic : buff0 ++ (S.drop pos).take (4 - buff0.length) = BLOCK_MAGIC)
    (hrb : read_block ⟨S, pos + (4 - buff0.length), sk, cl⟩ none m l =
      (.ok (off, h, doff, d), fd2)) :
    read_blocks_serially_loop m l v (fuel + 1) blocks buff0 false ⟨S, pos, sk, cl⟩ =
      (if h.flags &&& BLOCK_FLAG_STREAMED ≠ 0 then
        (.ok (blocks ++ [⟨off, m, l, v, some h, some doff, some d, none⟩]), fd2)
      else read_blocks_serially_loop m l v fuel
        (blocks ++ [⟨off, m, l, v, some h, some doff, some d, none⟩]) [] false fd2) := by
  have hbm : BLOCK_MAGIC.length = 4 := rfl
  have hnotidx : ¬ (BLOCK_MAGIC = INDEX_HEADER.take 4) := by decide
  have htl : ((S.drop pos).take (4 - buff0.length)).length = 4 - buff0.length := by
    simp only [List.length_take, List.length_drop]
    omega
  rw [loop_succ_eq]
  unfold fill_buff Fd.read
  simp only [hbm, Bool.false_eq_true, if_false, hmagic, htl, hnotidx,
    eq_self_iff_true, true_and, false_and, false_or, or_true, if_true,
    Nat.lt_irrefl]
  rw [hrb]
  simp only [init_with_data]

/-! ### The serial scanner on a well-formed stream -/

theorem expectedHeader_not_streamed (p : List Nat) :
    ¬ ((expectedHeader p).flags &&& BLOCK_FLAG_STREAMED ≠ 0) := by
  have h0 : (expectedHeader p).flags = 0 := rfl
  rw [h0]
  decide

theorem serial_loop_generated (m l v : Bool) (ps : List (List Nat)) :
    ∀ (fuel : Nat) (blocks : List ReadBlock) (S T : List Nat) (base : Nat) (sk cl : Bool),
    S.drop base = blocksBytes ps ++ T →
    (T.take 4 = INDEX_HEADER.take 4 ∨ T.length < 4) →
    ps.length + 1 ≤ fuel →
    read_blocks_serially_loop m l v fuel blocks [] false ⟨S, base, sk, cl⟩ =
      (.ok (blocks ++ expectedBlocks base m l v ps),
       ⟨S, base + (blocksBytes ps).length + min 4 T.length, sk, cl⟩) := by
  induction ps with
  | nil =>
    intro fuel blocks S T base sk cl hS hT hfuel
    have hST : S.drop base = T := by simpa [blocksBytes] using hS
    have hTlen : S.length - base = T.length := by
      have := congrArg List.length hST
      simpa using this
    obtain ⟨f, rfl⟩ : ∃ f, fuel = f + 1 := ⟨fuel - 1, by omega⟩
    rcases hT with hidx | hshort
    · have h4 : min 4 T.length = 4 := by
        have h17 : INDEX_HEADER.length = 17 := rfl
        have := congrArg List.length hidx
        simp only [List.length_take, h17] at this
        omega
      rw [loop_step_index m l v f blocks S base sk cl (by rw [hST]; exact hidx)]
      simp [expectedBlocks, blocksBytes, h4]
    · have h4 : min 4 T.length = T.length := by omega
      have hs4 : S.length - base < 4 - ([] : List Nat).length := by
        simp only [List.length_nil, Nat.sub_zero]
        omega
      rw [loop_step_short m l v f blocks [] S base sk cl (by simp) hs4]
      simp [expectedBlocks, blocksBytes, h4, hTlen]
  | cons p ps ih =>
    intro fuel blocks S T base sk cl hS hT hfuel
    obtain ⟨f, rfl⟩ : ∃ f, fuel = f + 1 := ⟨fuel - 1, by omega⟩
    have hS' : S.drop base = blockBytes p ++ (blocksBytes ps ++ T) := by
      rw [hS]
      simp [blocksBytes, List.append_assoc]
    have hmagic := stream_take_magic S (blocksBytes ps ++ T) p base hS'
    have hrb := read_block_generated S (blocksBytes ps ++ T) p base (base + 4) sk cl
      none m l rfl hS'
    rw [loop_step_block m l v f blocks S base sk cl (base + 4) (base + 14)
      (expectedHeader p) (if l then .deferredBytes p else .bytes p)
      ⟨S, base + 14 + p.length, sk, cl⟩ hmagic hrb]
    rw [if_neg (expectedHeader_not_streamed p)]
    have hblk : (⟨base + 4, m, l, v, some (expectedHeader p), some (base + 14),
        some (if l then BlockData.deferredBytes p else BlockData.bytes p), none⟩ : ReadBlock) =
        expectedBlock base p m l v := rfl
    rw [hblk]
    have hnext : base + 14 + p.length = base + (blockBytes p).length := by
      rw [blockBytes_length]
      omega
    rw [hnext]
    have hS'' : S.drop (base + (blockBytes p).length) = blocksBytes ps ++ T := by
      rw [drop_add, hS', List.drop_left]
    rw [ih f (blocks ++ [expectedBlock base p m l v]) S T
      (base + (blockBytes p).length) sk cl hS'' hT (by simpa using hfuel)]
    have hlen3 : (blocksBytes (p :: ps)).length =
        (blockBytes p).length + (blocksBytes ps).length := by
      simp [blocksBytes]
    simp only [Prod.mk.injEq, Except.ok.injEq, Fd.mk.injEq, and_true, true_and]
    constructor
    · simp [expectedBlocks, List.append_assoc]
    · omega

/-! ### The index path on a well-formed stream -/

theorem blocksBytes_ge (ps : List (List Nat)) : ps.length ≤ (blocksBytes ps).length := by
  induction ps with
  | nil => simp [blocksBytes]
  | cons p ps ih =>
    simp only [blocksBytes, List.length_append, List.length_cons, blockBytes_length]
    omega

theorem encodeOffsets_length (offs : List Nat) :
    (encodeOffsets offs).length = 2 * offs.length := by
  induction offs with
  | nil => rfl
  | cons o rest ih =>
    simp only [encodeOffsets, encodeU16, List.length_append, List.length_cons, ih]
    simp
    omega

theorem decode_encode (offs : List Nat) : decodeOffsets (encodeOffsets offs) = offs := by
  induction offs with
  | nil => rfl
  | cons o rest ih =>
    show decodeOffsets (o / 256 :: o % 256 :: encodeOffsets rest) = o :: rest
    unfold decodeOffsets
    rw [ih]
    congr 1
    omega

theorem matchesAt_of_drop (S X : List Nat) (L : Nat)
    (hdrop : S.drop L = INDEX_HEADER ++ X) :
    matchesAt S INDEX_HEADER L = true := by
  unfold matchesAt
  rw [hdrop, List.take_left]
  simp

theorem lastIndexMarker_eq (data : List Nat) (L : Nat)
    (hm : matchesAt data INDEX_HEADER L = true) :
    ∀ n, L ≤ n →
    (∀ j, L < j → j ≤ n → matchesAt data INDEX_HEADER j = false) →
    lastIndexMarker data 0 n = some L := by
  intro n
  induction n with
  | zero =>
    intro hLn _
    have hL0 : L = 0 := by omega
    subst hL0
    unfold lastIndexMarker
    rw [if_pos ⟨Nat.le_refl 0, hm⟩]
  | succ k ihk =>
    intro hLn hno
    by_cases hL : L = k + 1
    · subst hL
      unfold lastIndexMarker
      rw [if_pos ⟨by omega, hm⟩]
    · have hLk : L ≤ k := by omega
      have hnot : matchesAt data INDEX_HEADER (k + 1) = false :=
        hno (k + 1) (by omega) (by omega)
      unfold lastIndexMarker
      rw [if_neg (by simp [hnot])]
      exact ihk hLk fun j h1 h2 => hno j h1 (by omega)

theorem read_block_index_generated (S : List Nat) (offs : List Nat) (L q : Nat)
    (sk cl : Bool) (hdrop : S.drop L = indexBytes offs) :
    read_block_index ⟨S, q, sk, cl⟩ L =
      (.ok offs, ⟨S, L + 17 + 1 + 2 * offs.length, sk, cl⟩) := by
  have hdrop' : S.drop L = INDEX_HEADER ++ ([offs.length] ++ encodeOffsets offs) := hdrop
  have h17 : (INDEX_HEADER.length : Nat) = 17 := rfl
  have hr1 : Fd.read ⟨S, L, sk, cl⟩ INDEX_HEADER.length =
      (INDEX_HEADER, ⟨S, L + 17, sk, cl⟩) := by
    rw [read_exact S INDEX_HEADER ([offs.length] ++ encodeOffsets offs) L
      INDEX_HEADER.length sk cl hdrop' rfl, h17]
  have hd17 : S.drop (L + 17) = [offs.length] ++ encodeOffsets offs := by
    rw [drop_add, hdrop']
    have : (17 : Nat) = INDEX_HEADER.length := rfl
    rw [this, List.drop_left]
  have hr2 : Fd.read ⟨S, L + 17, sk, cl⟩ 1 =
      ([offs.length], ⟨S, L + 17 + 1, sk, cl⟩) :=
    read_exact S [offs.length] (encodeOffsets offs) (L + 17) 1 sk cl hd17 rfl
  have hd18 : S.drop (L + 17 + 1) = encodeOffsets offs ++ [] := by
    rw [drop_add, hd17]
    simp
  have hr3 : Fd.read ⟨S, L + 17 + 1, sk, cl⟩ (2 * offs.length) =
      (encodeOffsets offs, ⟨S, L + 17 + 1 + 2 * offs.length, sk, cl⟩) :=
    read_exact S (encodeOffsets offs) [] (L + 17 + 1) (2 * offs.length) sk cl hd18
      (encodeOffsets_length offs)
  unfold read_block_index
  simp only [Fd.seek, hr1, hr2, hr3, encodeOffsets_length, decode_encode,
    eq_self_iff_true, if_true, if_neg]
  simp

theorem blockOffsetsFrom_length (ps : List (List Nat)) :
    ∀ base, (blockOffsetsFrom base ps).length = ps.length := by
  induction ps with
  | nil => intro base; rfl
  | cons p ps ih =>
    intro base
    simp only [blockOffsetsFrom, List.length_cons, ih]

theorem offset_slice (ps : List (List Nat)) :
    ∀ (S T : List Nat) (base : Nat) (i o : Nat) (p : List Nat),
    S.drop base = blocksBytes ps ++ T →
    (blockOffsetsFrom base ps).get? i = some o →
    ps.get? i = some p →
    ∃ R, S.drop o = blockBytes p ++ R := by
  induction ps with
  | nil =>
    intro S T base i o p _ hoff _
    simp [blockOffsetsFrom] at hoff
  | cons p0 ps ih =>
    intro S T base i o p hS hoff hp
    have hS' : S.drop base = blockBytes p0 ++ (blocksBytes ps ++ T) := by
      rw [hS]
      simp [blocksBytes, List.append_assoc]
    cases i with
    | zero =>
      simp only [blockOffsetsFrom, List.get?] at hoff hp
      obtain rfl : base = o := by injection hoff
      obtain rfl : p0 = p := by injection hp
      exact ⟨blocksBytes ps ++ T, hS'⟩
    | succ i =>
      simp only [blockOffsetsFrom, List.get?] at hoff hp
      have hS'' : S.drop (base + (blockBytes p0).length) = blocksBytes ps ++ T := by
        rw [drop_add, hS', List.drop_left]
      exact ih S T (base + (blockBytes p0).length) i o p hS'' hoff hp

theorem expectedBlocks_length (m l v : Bool) (ps : List (List Nat)) :
    ∀ base, (expectedBlocks base m l v ps).length = ps.length := by
  induction ps with
  | nil => intro base; rfl
  | cons p ps ih =>
    intro base
    simp only [expectedBlocks, List.length_cons, ih]

theorem expectedBlocks_get? (m l v : Bool) (ps : List (List Nat)) :
    ∀ (base i o : Nat) (p : List Nat),
    (blockOffsetsFrom base ps).get? i = some o →
    ps.get? i = some p →
    (expectedBlocks base m l v ps).get? i = some (expectedBlock o p m l v) := by
  induction ps with
  | nil =>
    intro base i o p hoff _
    simp [blockOffsetsFrom] at hoff
  | cons p0 ps ih =>
    intro base i o p hoff hp
    cases i with
    | zero =>
      simp only [blockOffsetsFrom, List.get?] at hoff hp
      obtain rfl : base = o := by injection hoff
      obtain rfl : p0 = p := by injection hp
      rfl
    | succ i =>
      simp only [blockOffsetsFrom, List.get?] at hoff hp
      exact ih (base + (blockBytes p0).length) i o p hoff hp

theorem pyIndexNat_zero (len : Nat) (h : 0 < len) : pyIndexNat len 0 = .ok 0 := by
  unfold pyIndexNat
  have h1 : ¬ ((0 : Int) < 0) := by omega
  rw [if_neg h1]
  have h2 : (0 : Int) ≤ 0 ∧ (0 : Int) < (len : Int) := ⟨le_refl 0, by exact_mod_cast h⟩
  rw [if_pos h2]
  rfl

theorem pyIndexNat_neg_one (len : Nat) (h : 0 < len) :
    pyIndexNat len (-1) = .ok (len - 1) := by
  unfold pyIndexNat
  have h1 : ((-1 : Int) < 0) := by omega
  rw [if_pos h1]
  have h2 : (0 : Int) ≤ (len : Int) + (-1) ∧ (len : Int) + (-1) < (len : Int) := by omega
  rw [if_pos h2]
  congr 1
  omega

theorem get?_set_self {A : Type} (l : List A) (i : Nat) (a : A) (h : i < l.length) :
    (l.set i a).get? i = some a := by
  simp [List.get?_eq_getElem?, List.getElem?_set_eq_of_lt, h]

theorem get?_set_other {A : Type} (l : List A) (i j : Nat) (a : A) (h : i ≠ j) :
    (l.set i a).get? j = l.get? j := by
  simp [List.get?_eq_getElem?, List.getElem?_set_ne, h]

theorem spot_check_at_ok (offs : List Nat) (blocks : List ReadBlock) (i : Int)
    (j : Nat) (S : List Nat) (q oj : Nat) (pj Rj : List Nat) (bj blk1 : ReadBlock)
    (hpy : pyIndexNat offs.length i = .ok j)
    (hpyb : pyIndexNat blocks.length i = .ok j)
    (hoj : offs.get? j = some oj)
    (hbj : blocks.get? j = some bj)
    (hS : S.drop oj = blockBytes pj ++ Rj)
    (hload : bj.load true ⟨S, oj + 4, true, false⟩ = (.ok blk1, ⟨S, oj + 4, true, false⟩)) :
    spot_check_at offs blocks i ⟨S, q, true, false⟩ =
      (.ok (blocks.set j blk1), ⟨S, oj + 4, true, false⟩) := by
  have hS' : S.drop oj = BLOCK_MAGIC ++ ((encodeHeader (expectedHeader pj) ++ pj) ++ Rj) := by
    rw [hS, blockBytes_eq, List.append_assoc]
  have hrd : Fd.read ⟨S, oj, true, false⟩ BLOCK_MAGIC.length =
      (BLOCK_MAGIC, ⟨S, oj + 4, true, false⟩) := by
    have h := read_exact S BLOCK_MAGIC ((encodeHeader (expectedHeader pj) ++ pj) ++ Rj)
      oj BLOCK_MAGIC.length true false hS' rfl
    rw [h]
    rfl
  unfold spot_check_at
  simp only [hpy, hpyb, hoj, hbj, Fd.seek, hrd, hload]
  rw [if_neg (by simp)]

theorem read_blocks_generated (m v : Bool) (ps : List (List Nat))
    (hne : ps ≠ [])
    (hnolater : ∀ j, j ≤ (mkStream ps).length → (blocksBytes ps).length < j →
      matchesAt (mkStream ps) INDEX_HEADER j = false) :
    ∃ (bi : List ReadBlock) (fdE : Fd),
      read_blocks ⟨mkStream ps, 0, true, false⟩ m true v false = (.ok bi, fdE) ∧
      bi.length = ps.length ∧
      ∀ (i o : Nat) (p : List Nat),
        (blockOffsetsFrom 0 ps).get? i = some o →
        ps.get? i = some p →
        bi.get? i = some (if i = 0 ∨ i = ps.length - 1 then expectedBlock o p m true v
          else unloadedBlock o m v) := by
  set S := mkStream ps with hSdef
  set L := (blocksBytes ps).length with hLdef
  set offs := blockOffsetsFrom 0 ps with hoffsdef
  have hn : 0 < ps.length := by
    cases ps with
    | nil => exact absurd rfl hne
    | cons a b => simp
  have hoffslen : offs.length = ps.length := blockOffsetsFrom_length ps 0
  have hdropL : S.drop L = indexBytes offs := by
    rw [hSdef]
    unfold mkStream
    rw [hLdef, List.drop_left]
  have hS0 : S.drop 0 = blocksBytes ps ++ indexBytes offs := by
    rw [hSdef]
    rfl
  -- the slices at each indexed offset
  have hslice : ∀ (i o : Nat) (p : List Nat), offs.get? i = some o → ps.get? i = some p →
      ∃ R, S.drop o = blockBytes p ++ R :=
    fun i o p hoff hp => offset_slice ps S (indexBytes offs) 0 i o p hS0 hoff hp
  -- the index search finds the trailing index
  have hLle : L ≤ S.length := by
    rw [hSdef]
    unfold mkStream
    rw [hLdef]
    simp
  have hfind : find_block_index ⟨S, 0, true, false⟩ 0 =
      (some L, ⟨S, S.length, true, false⟩) := by
    unfold find_block_index
    rw [lastIndexMarker_eq S L (matchesAt_of_drop S ([offs.length] ++ encodeOffsets offs)
      L hdropL) S.length hLle (fun j h1 h2 => hnolater j h2 h1)]
    rfl
  have hrbi := read_block_index_generated S offs L S.length true false hdropL
  -- heads and lasts
  obtain ⟨o0, ho0⟩ : ∃ o0, offs.get? 0 = some o0 :=
    ⟨_, List.get?_eq_get (by omega)⟩
  obtain ⟨p0, hp0⟩ : ∃ p0, ps.get? 0 = some p0 :=
    ⟨_, List.get?_eq_get (by omega)⟩
  obtain ⟨olast, holast⟩ : ∃ o1, offs.get? (ps.length - 1) = some o1 :=
    ⟨_, List.get?_eq_get (by omega)⟩
  obtain ⟨plast, hplast⟩ : ∃ p1, ps.get? (ps.length - 1) = some p1 :=
    ⟨_, List.get?_eq_get (by omega)⟩
  obtain ⟨R0, hR0⟩ := hslice 0 o0 p0 ho0 hp0
  obtain ⟨Rlast, hRlast⟩ := hslice (ps.length - 1) olast plast holast hplast
  -- the unloaded handles built from the index
  set blocks0 : List ReadBlock := offs.map (fun o => unloadedBlock o m v) with hblocks0
  have hblocks0len : blocks0.length = ps.length := by
    rw [hblocks0, List.length_map, hoffslen]
  have hb0 : blocks0.get? 0 = some (unloadedBlock o0 m v) := by
    rw [hblocks0, List.get?_map, ho0]
    rfl
  -- first spot check
  have hload0 := load_unloaded_generated S R0 p0 o0 (o0 + 4) true m v hR0
  have hsc0 := spot_check_at_ok offs blocks0 0 0 S (L + 17 + 1 + 2 * offs.length)
    o0 p0 R0 (unloadedBlock o0 m v) (expectedBlock o0 p0 m true v)
    (pyIndexNat_zero offs.length (by omega)) (pyIndexNat_zero blocks0.length (by omega))
    ho0 hb0 hR0 hload0
  set blocks1 : List ReadBlock := blocks0.set 0 (expectedBlock o0 p0 m true v) with hblocks1
  have hblocks1len : blocks1.length = ps.length := by
    rw [hblocks1, List.length_set, hblocks0len]
  -- second spot check (last entry)
  have hb1last : ∃ blast blast', blocks1.get? (ps.length - 1) = some blast ∧
      blast.load true ⟨S, olast + 4, true, false⟩ =
        (.ok blast', ⟨S, olast + 4, true, false⟩) ∧
      blast' = expectedBlock olast plast m true v := by
    by_cases h1 : ps.length - 1 = 0
    · refine ⟨expectedBlock o0 p0 m true v, expectedBlock o0 p0 m true v, ?_, ?_, ?_⟩
      · rw [h1, hblocks1]
        exact get?_set_self blocks0 0 _ (by rw [hblocks0len]; omega)
      · exact load_of_loaded _ true _ (expectedBlock_loaded o0 p0 m true v)
      · have he0 : o0 = olast := by
          rw [h1] at holast
          rw [ho0] at holast
          injection holast
        have he1 : p0 = plast := by
          rw [h1] at hplast
          rw [hp0] at hplast
          injection hplast
        rw [he0, he1]
    · refine ⟨unloadedBlock olast m v, expectedBlock olast plast m true v, ?_, ?_, rfl⟩
      · rw [hblocks1, get?_set_other blocks0 0 (ps.length - 1) _ (fun hcontra => h1 hcontra.symm),
          hblocks0, List.get?_map, holast]
        rfl
      · exact load_unloaded_generated S Rlast plast olast (olast + 4) true m v hRlast
  obtain ⟨blast, blast', hb1, hloadlast, hblast'⟩ := hb1last
  have hsclast := spot_check_at_ok offs blocks1 (-1) (ps.length - 1) S (o0 + 4)
    olast plast Rlast blast blast'
    (by rw [hoffslen]; exact pyIndexNat_neg_one ps.length (by omega))
    (by rw [hblocks1len]; exact pyIndexNat_neg_one ps.length (by omega))
    holast hb1 hRlast hloadlast
  set blocks2 : List ReadBlock := blocks1.set (ps.length - 1) blast' with hblocks2
  have hspot : spot_check offs blocks0 ⟨S, L + 17 + 1 + 2 * offs.length, true, false⟩ =
      (.ok blocks2, ⟨S, olast + 4, true, false⟩) := by
    unfold spot_check
    rw [hsc0]
    show spot_check_at offs blocks1 (-1) ⟨S, o0 + 4, true, false⟩ = _
    rw [hsclast]
  -- assemble the run of read_blocks
  refine ⟨blocks2, ⟨S, olast + 4, true, false⟩, ?_, ?_, ?_⟩
  · unfold read_blocks
    rw [if_neg (by simp)]
    show (match find_block_index ⟨S, 0, true, false⟩ (Fd.tell ⟨S, 0, true, false⟩) with
      | (none, fd1) => read_blocks_serially (fd1.seek (Fd.tell ⟨S, 0, true, false⟩))
          m true v false
      | (some index_offset, fd1) => _) = _
    rw [show Fd.tell ⟨S, 0, true, false⟩ = 0 from rfl, hfind]
    simp only [hrbi]
    rw [show (offs.map fun o =>
        (⟨o + BLOCK_MAGIC.length, m, true, v, none, none, none, none⟩ : ReadBlock)) =
      blocks0 from rfl]
    simp only [hspot]
  · rw [hblocks2, List.length_set, hblocks1len]
  · intro i o p hoff hp
    have hi : i < ps.length := by
      rcases List.get?_eq_some.mp hp with ⟨hlt, -⟩
      exact hlt
    by_cases hi0 : i = 0
    · subst hi0
      rw [ho0] at hoff
      rw [hp0] at hp
      obtain rfl : o0 = o := Option.some.inj hoff
      obtain rfl : p0 = p := Option.some.inj hp
      rw [if_pos (Or.inl rfl)]
      by_cases hlast0 : ps.length - 1 = 0
      · have he0 : o0 = olast := by
          rw [hlast0, ho0] at holast
          exact Option.some.inj holast
        have he1 : p0 = plast := by
          rw [hlast0, hp0] at hplast
          exact Option.some.inj hplast
        rw [hblocks2, hlast0,
          get?_set_self blocks1 0 blast' (by rw [hblocks1len]; omega),
          hblast', ← he0, ← he1]
      · rw [hblocks2, get?_set_other blocks1 (ps.length - 1) 0 blast' hlast0,
          hblocks1, get?_set_self blocks0 0 _ (by rw [hblocks0len]; omega)]
    · by_cases hilast : i = ps.length - 1
      · subst hilast
        rw [holast] at hoff
        rw [hplast] at hp
        obtain rfl : olast = o := Option.some.inj hoff
        obtain rfl : plast = p := Option.some.inj hp
        rw [if_pos (Or.inr rfl)]
        rw [hblocks2, get?_set_self blocks1 (ps.length - 1) blast'
          (by rw [hblocks1len]; omega), hblast']
      · rw [if_neg (by tauto)]
        rw [hblocks2, get?_set_other blocks1 (ps.length - 1) i blast'
          (fun hcontra => hilast hcontra.symm)]
        rw [hblocks1, get?_set_other blocks0 0 i _ (fun hcontra => hi0 hcontra.symm)]
        rw [hblocks0, List.get?_map, hoff]
        rfl

theorem indexBytes_take4 (offs : List Nat) :
    (indexBytes offs).take 4 = INDEX_HEADER.take 4 := by
  unfold indexBytes
  rw [List.take_append_of_le_length (by decide)]

theorem indexBytes_length (offs : List Nat) :
    (indexBytes offs).length = 18 + 2 * offs.length := by
  unfold indexBytes
  simp only [List.length_append, List.length_cons, List.length_nil, encodeOffsets_length]
  have h17 : INDEX_HEADER.length = 17 := rfl
  rw [h17]
  omega

theorem read_blocks_serially_mkStream (m l v : Bool) (ps : List (List Nat))
    (sk cl : Bool) :
    read_blocks_serially ⟨mkStream ps, 0, sk, cl⟩ m l v false =
      (.ok (expectedBlocks 0 m l v ps),
       ⟨mkStream ps, (blocksBytes ps).length + 4, sk, cl⟩) := by
  have hfuel : ps.length + 1 ≤ (mkStream ps).length + 1 := by
    have h1 := blocksBytes_ge ps
    unfold mkStream
    simp only [List.length_append]
    omega
  have hmain := serial_loop_generated m l v ps ((mkStream ps).length + 1) []
    (mkStream ps) (indexBytes (blockOffsetsFrom 0 ps)) 0 sk cl
    (by unfold mkStream; rfl) (Or.inl (indexBytes_take4 _)) hfuel
  unfold read_blocks_serially
  show read_blocks_serially_loop m l v ((mkStream ps).length + 1) [] [] false
    ⟨mkStream ps, 0, sk, cl⟩ = _
  rw [hmain]
  have hT4 : min 4 (indexBytes (blockOffsetsFrom 0 ps)).length = 4 := by
    rw [indexBytes_length]
    omega
  simp only [List.nil_append, hT4, Nat.zero_add]

/-! ### Claims C2 and C8 -/

/-- Claim C2: for every well-formed stream of N blocks (N ≥ 1) with a
valid trailing index, the Index-Accelerated Loader returns the same N
Block Handles as the Serial Scanner would on the same bytes: same offsets
in the same order, and the same decoded payload bytes when each handle's
payload is forced. -/
theorem c2_index_loader_matches_serial_scanner (m v : Bool) (ps : List (List Nat))
    (hne : ps ≠ [])
    (hnolater : ∀ j, j ≤ (mkStream ps).length → (blocksBytes ps).length < j →
      matchesAt (mkStream ps) INDEX_HEADER j = false) :
    ∃ (bi bs : List ReadBlock) (fdA fdB : Fd),
      read_blocks ⟨mkStream ps, 0, true, false⟩ m true v false = (.ok bi, fdA) ∧
      read_blocks_serially ⟨mkStream ps, 0, true, false⟩ m true v false = (.ok bs, fdB) ∧
      bi.length = ps.length ∧ bs.length = ps.length ∧
      ∀ i, i < ps.length → ∃ (b s : ReadBlock) (p : List Nat),
        bi.get? i = some b ∧ bs.get? i = some s ∧ ps.get? i = some p ∧
        b.offset = s.offset ∧
        forcedData b ⟨mkStream ps, 0, true, false⟩ = .ok p ∧
        forcedData s ⟨mkStream ps, 0, true, false⟩ = .ok p := by
  obtain ⟨bi, fdA, hrun, hlen, hchar⟩ := read_blocks_generated m v ps hne hnolater
  refine ⟨bi, expectedBlocks 0 m true v ps, fdA, _, hrun,
    read_blocks_serially_mkStream m true v ps true false, hlen,
    expectedBlocks_length m true v ps 0, ?_⟩
  intro i hi
  obtain ⟨o, ho⟩ : ∃ o, (blockOffsetsFrom 0 ps).get? i = some o :=
    ⟨_, List.get?_eq_get (by rw [blockOffsetsFrom_length]; omega)⟩
  obtain ⟨p, hp⟩ : ∃ p, ps.get? i = some p := ⟨_, List.get?_eq_get (by omega)⟩
  have hbi := hchar i o p ho hp
  have hbs := expectedBlocks_get? m true v ps 0 i o p ho hp
  have hS0 : (mkStream ps).drop 0 =
      blocksBytes ps ++ indexBytes (blockOffsetsFrom 0 ps) := rfl
  obtain ⟨R, hR⟩ := offset_slice ps (mkStream ps) _ 0 i o p hS0 ho hp
  by_cases hcond : i = 0 ∨ i = ps.length - 1
  · rw [if_pos hcond] at hbi
    exact ⟨_, _, p, hbi, hbs, hp, rfl, forcedData_expected o p m true v _,
      forcedData_expected o p m true v _⟩
  · rw [if_neg hcond] at hbi
    exact ⟨_, _, p, hbi, hbs, hp, rfl,
      forcedData_unloaded (mkStream ps) R p o 0 true m v hR,
      forcedData_expected o p m true v _⟩

set_option maxRecDepth 8000 in
/-- Witness for C2 at a concrete three-block stream. -/
theorem c2_witness :
    ∃ (bi bs : List ReadBlock) (fdA fdB : Fd),
      read_blocks ⟨mkStream [[1], [2], [3]], 0, true, false⟩ false true true false =
        (.ok bi, fdA) ∧
      read_blocks_serially ⟨mkStream [[1], [2], [3]], 0, true, false⟩ false true true false =
        (.ok bs, fdB) ∧
      bi.length = [[1], [2], [3]].length ∧ bs.length = [[1], [2], [3]].length ∧
      ∀ i, i < [[1], [2], [3]].length → ∃ (b s : ReadBlock) (p : List Nat),
        bi.get? i = some b ∧ bs.get? i = some s ∧ [[1], [2], [3]].get? i = some p ∧
        b.offset = s.offset ∧
        forcedData b ⟨mkStream [[1], [2], [3]], 0, true, false⟩ = .ok p ∧
        forcedData s ⟨mkStream [[1], [2], [3]], 0, true, false⟩ = .ok p :=
  c2_index_loader_matches_serial_scanner false true [[1], [2], [3]]
    (by decide) (by decide)

/-- Claim C8: when the Index-Accelerated Loader succeeds it has loaded
exactly the first and last handles of the sequence; every interior handle
is still unloaded (no payload read for it). -/
theorem c8_only_endpoints_loaded (m v : Bool) (ps : List (List Nat))
    (hne : ps ≠ [])
    (hnolater : ∀ j, j ≤ (mkStream ps).length → (blocksBytes ps).length < j →
      matchesAt (mkStream ps) INDEX_HEADER j = false) :
    ∃ (bi : List ReadBlock) (fdA : Fd),
      read_blocks ⟨mkStream ps, 0, true, false⟩ m true v false = (.ok bi, fdA) ∧
      bi.length = ps.length ∧
      ∀ i, i < ps.length → ∃ b : ReadBlock, bi.get? i = some b ∧
        (b.loaded = true ↔ (i = 0 ∨ i = ps.length - 1)) := by
  obtain ⟨bi, fdA, hrun, hlen, hchar⟩ := read_blocks_generated m v ps hne hnolater
  refine ⟨bi, fdA, hrun, hlen, ?_⟩
  intro i hi
  obtain ⟨o, ho⟩ : ∃ o, (blockOffsetsFrom 0 ps).get? i = some o :=
    ⟨_, List.get?_eq_get (by rw [blockOffsetsFrom_length]; omega)⟩
  obtain ⟨p, hp⟩ : ∃ p, ps.get? i = some p := ⟨_, List.get?_eq_get (by omega)⟩
  have hbi := hchar i o p ho hp
  by_cases hcond : i = 0 ∨ i = ps.length - 1
  · rw [if_pos hcond] at hbi
    exact ⟨_, hbi, by simp [expectedBlock_loaded, hcond]⟩
  · rw [if_neg hcond] at hbi
    refine ⟨_, hbi, ?_⟩
    constructor
    · intro hload
      exact absurd hload (by simp [unloadedBlock, ReadBlock.loaded])
    · intro hc
      exact absurd hc hcond

set_option maxRecDepth 8000 in
/-- Witness for C8 at a concrete four-block stream: the two interior
handles are untouched. -/
theorem c8_witness :
    ∃ (bi : List ReadBlock) (fdA : Fd),
      read_blocks ⟨mkStream [[5], [6], [7], [8]], 0, true, false⟩ true true false false =
        (.ok bi, fdA) ∧
      bi.length = [[5], [6], [7], [8]].length ∧
      ∀ i, i < [[5], [6], [7], [8]].length → ∃ b : ReadBlock, bi.get? i = some b ∧
        (b.loaded = true ↔ (i = 0 ∨ i = [[5], [6], [7], [8]].length - 1)) :=
  c8_only_endpoints_loaded true false [[5], [6], [7], [8]] (by decide) (by decide)

/-! ### Leading zero padding before the first block -/

theorem loop_block_then_terminal (m l v : Bool) (f : Nat) (blocks : List ReadBlock)
    (buff0 S T p : List Nat) (pos o : Nat) (sk cl : Bool)
    (hb : buff0.length < 4)
    (hpos : pos + (4 - buff0.length) = o + 4)
    (hSo : S.drop o = blockBytes p ++ T)
    (hmagic : buff0 ++ (S.drop pos).take (4 - buff0.length) = BLOCK_MAGIC)
    (hlong : 4 - buff0.length ≤ S.length - pos)
    (hT : T.take 4 = INDEX_HEADER.take 4 ∨ T.length < 4)
    (hf : 2 ≤ f) :
    read_blocks_serially_loop m l v f blocks buff0 false ⟨S, pos, sk, cl⟩ =
      (.ok (blocks ++ [expectedBlock o p m l v]),
       ⟨S, o + 14 + p.length + min 4 T.length, sk, cl⟩) := by
  obtain ⟨f', rfl⟩ : ∃ f', f = f' + 1 := ⟨f - 1, by omega⟩
  have hrb := read_block_generated S T p o (o + 4) sk cl none m l rfl hSo
  rw [← hpos] at hrb
  rw [loop_step_block_buff m l v f' blocks buff0 S pos sk cl (o + 4) (o + 14)
    (expectedHeader p) (if l then .deferredBytes p else .bytes p)
    ⟨S, o + 14 + p.length, sk, cl⟩ hb hlong hmagic (by rw [hpos] at hrb ⊢; exact hrb)]
  rw [if_neg (expectedHeader_not_streamed p)]
  have hblk : (⟨o + 4, m, l, v, some (expectedHeader p), some (o + 14),
      some (if l then BlockData.deferredBytes p else BlockData.bytes p), none⟩ : ReadBlock) =
      expectedBlock o p m l v := rfl
  rw [hblk]
  have hTdrop : S.drop (o + 14 + p.length) = blocksBytes [] ++ T := by
    have he : o + 14 + p.length = o + (blockBytes p).length := by
      rw [blockBytes_length]
      omega
    rw [he, drop_add, hSo, List.drop_left]
    simp [blocksBytes]
  have := serial_loop_generated m l v [] f' (blocks ++ [expectedBlock o p m l v])
    S T (o + 14 + p.length) sk cl hTdrop hT (by simp only [List.length_nil]; omega)
  rw [this]
  simp [expectedBlocks, blocksBytes]

theorem padding_loop (m l v : Bool) (p S T : List Nat) (sk cl : Bool) :
    ∀ (k fuel base : Nat),
    S.drop base = List.replicate k 0 ++ (blockBytes p ++ T) →
    (T.take 4 = INDEX_HEADER.take 4 ∨ T.length < 4) →
    k + 2 ≤ fuel →
    read_blocks_serially_loop m l v fuel [] [] false ⟨S, base, sk, cl⟩ =
      (.ok [expectedBlock (base + k) p m l v],
       ⟨S, base + k + 14 + p.length + min 4 T.length, sk, cl⟩) := by
  intro k
  induction k using Nat.strong_induction_on with
  | _ k ihk =>
    intro fuel base hS hT hfuel
    have hSlen : S.length - base = k + (14 + p.length) + T.length := by
      have hc := congrArg List.length hS
      simp only [List.length_drop, List.length_append, List.length_replicate,
        blockBytes_length] at hc
      omega
    by_cases hk0 : k = 0
    · subst hk0
      obtain ⟨f', rfl⟩ : ∃ f', fuel = f' + 1 := ⟨fuel - 1, by omega⟩
      have hS0 : S.drop base = blockBytes p ++ T := by simpa using hS
      have hlong0 : 4 - ([] : List Nat).length ≤ S.length - base := by
        simp only [List.length_nil, Nat.sub_zero]
        omega
      have := loop_block_then_terminal m l v (f' + 1) [] [] S T p base base sk cl
        (by simp) (by simp) hS0
        (by simpa using stream_take_magic S T p base hS0) hlong0 hT (by omega)
      rw [this]
      simp
    · by_cases hk4 : 4 ≤ k
      · obtain ⟨k4, rfl⟩ : ∃ k4, k = k4 + 4 := ⟨k - 4, by omega⟩
        obtain ⟨f', rfl⟩ : ∃ f', fuel = f' + 1 := ⟨fuel - 1, by omega⟩
        have hrep : S.drop base =
            0 :: 0 :: 0 :: 0 :: (List.replicate k4 0 ++ (blockBytes p ++ T)) := by
          rw [hS]
          simp [List.replicate_succ, Nat.add_comm]
        have hchunk : (S.drop base).take 4 = [0, 0, 0, 0] := by
          rw [hrep]
          rfl
        rw [loop_step_padding m l v f' S base sk cl (by omega)
          (by rw [hchunk]; decide) (by rw [hchunk]; decide) (by rw [hchunk]; rfl)]
        rw [hchunk]
        have hstrip : stripZeros [0, 0, 0, 0] = [] := rfl
        rw [hstrip]
        have hS4 : S.drop (base + 4) = List.replicate k4 0 ++ (blockBytes p ++ T) := by
          rw [drop_add, hrep]
          rfl
        rw [ihk k4 (by omega) f' (base + 4) hS4 hT (by omega)]
        have he1 : base + 4 + k4 = base + (k4 + 4) := by omega
        rw [he1]
      · -- k is 1, 2 or 3: the chunk mixes zeros with a magic fragment
        obtain ⟨f', rfl⟩ : ∃ f', fuel = f' + 1 := ⟨fuel - 1, by omega⟩
        have hS' : S.drop base =
            List.replicate k 0 ++ (BLOCK_MAGIC ++ ((encodeHeader (expectedHeader p) ++ p) ++ T)) := by
          rw [hS, blockBytes_eq]
          simp [List.append_assoc]
        have hSk : S.drop (base + k) =
            BLOCK_MAGIC ++ ((encodeHeader (expectedHeader p) ++ p) ++ T) := by
          rw [drop_add, hS', List.drop_left' (List.length_replicate k 0)]
        have hS4 : S.drop (base + 4) =
            BLOCK_MAGIC.drop (4 - k) ++ ((encodeHeader (expectedHeader p) ++ p) ++ T) := by
          have he : base + 4 = (base + k) + (4 - k) := by omega
          rw [he, drop_add, hSk, List.drop_append_of_le_length
            (show 4 - k ≤ BLOCK_MAGIC.length from by
              rw [show BLOCK_MAGIC.length = 4 from rfl]
              omega)]
        have hdroplen : (BLOCK_MAGIC.drop (4 - k)).length = k := by
          rw [List.length_drop, show BLOCK_MAGIC.length = 4 from rfl]
          omega
        have hchunk : (S.drop base).take 4 =
            List.replicate k 0 ++ BLOCK_MAGIC.take (4 - k) := by
          rw [hS', List.take_append_eq_append_take, List.length_replicate,
            List.take_append_of_le_length
              (show 4 - k ≤ BLOCK_MAGIC.length from by
                rw [show BLOCK_MAGIC.length = 4 from rfl]
                omega)]
          congr 1
          exact List.take_of_length_le (by rw [List.length_replicate]; omega)
        have hSo : S.drop (base + k) = blockBytes p ++ T := by
          rw [hSk, blockBytes_eq]
          simp [List.append_assoc]
        have hlentake : (BLOCK_MAGIC.take (4 - k)).length = 4 - k := by
          rw [List.length_take, show BLOCK_MAGIC.length = 4 from rfl]
          omega
        have htk : (BLOCK_MAGIC.drop (4 - k) ++
            ((encodeHeader (expectedHeader p) ++ p) ++ T)).take k =
            BLOCK_MAGIC.drop (4 - k) := by
          rw [List.take_append_of_le_length
            (show k ≤ (BLOCK_MAGIC.drop (4 - k)).length from by rw [hdroplen])]
          exact List.take_of_length_le (le_of_eq hdroplen)
        have hmagic2 : BLOCK_MAGIC.take (4 - k) ++
            (S.drop (base + 4)).take (4 - (BLOCK_MAGIC.take (4 - k)).length) =
            BLOCK_MAGIC := by
          rw [hlentake, hS4]
          have hkk : 4 - (4 - k) = k := by omega
          rw [hkk, htk]
          exact List.take_append_drop (4 - k) BLOCK_MAGIC
        have hk1 : 1 ≤ k := by omega
        have hk3 : k ≤ 3 := by omega
        have hpos2 : (base + 4) + (4 - (BLOCK_MAGIC.take (4 - k)).length) =
            (base + k) + 4 := by
          rw [hlentake]
          omega
        have hlong2 : 4 - (BLOCK_MAGIC.take (4 - k)).length ≤ S.length - (base + 4) := by
          rw [hlentake]
          omega
        have hblen : (BLOCK_MAGIC.take (4 - k)).length < 4 := by
          rw [hlentake]
          omega
        interval_cases k
        · rw [loop_step_padding m l v f' S base sk cl (by omega)
            (by rw [hchunk]; decide) (by rw [hchunk]; decide) (by rw [hchunk]; rfl)]
          rw [hchunk]
          rw [show stripZeros (List.replicate 1 0 ++ BLOCK_MAGIC.take (4 - 1)) =
            BLOCK_MAGIC.take (4 - 1) from rfl]
          rw [loop_block_then_terminal m l v f' [] (BLOCK_MAGIC.take (4 - 1)) S T p
            (base + 4) (base + 1) sk cl hblen hpos2 hSo hmagic2 hlong2 hT (by omega)]
          rfl
        · rw [loop_step_padding m l v f' S base sk cl (by omega)
            (by rw [hchunk]; decide) (by rw [hchunk]; decide) (by rw [hchunk]; rfl)]
          rw [hchunk]
          rw [show stripZeros (List.replicate 2 0 ++ BLOCK_MAGIC.take (4 - 2)) =
            BLOCK_MAGIC.take (4 - 2) from rfl]
          rw [loop_block_then_terminal m l v f' [] (BLOCK_MAGIC.take (4 - 2)) S T p
            (base + 4) (base + 2) sk cl hblen hpos2 hSo hmagic2 hlong2 hT (by omega)]
          rfl
        · rw [loop_step_padding m l v f' S base sk cl (by omega)
            (by rw [hchunk]; decide) (by rw [hchunk]; decide) (by rw [hchunk]; rfl)]
          rw [hchunk]
          rw [show stripZeros (List.replicate 3 0 ++ BLOCK_MAGIC.take (4 - 3)) =
            BLOCK_MAGIC.take (4 - 3) from rfl]
          rw [loop_block_then_terminal m l v f' [] (BLOCK_MAGIC.take (4 - 3)) S T p
            (base + 4) (base + 3) sk cl hblen hpos2 hSo hmagic2 hlong2 hT (by omega)]
          rfl

/-! ### Claim C4 -/

/-- Counterexample to claim C4 as stated: the stream `00 ∥ block` begins
with a marker-length chunk that matches neither marker and is not
all-zero (its tail holds the first magic bytes), yet the serial scan
accepts it and parses the block — it does not fail with `FormatError`. -/
theorem c4_counterexample :
    (read_blocks_serially ⟨0 :: blockBytes [7], 0, true, false⟩ false false false false =
      (.ok [expectedBlock 1 [7] false false false],
       ⟨0 :: blockBytes [7], 16, true, false⟩)) ∧
    (0 :: blockBytes [7]).take 4 ≠ BLOCK_MAGIC ∧
    (0 :: blockBytes [7]).take 4 ≠ INDEX_HEADER.take 4 ∧
    ¬ (∀ b ∈ (0 :: blockBytes [7]).take 4, b = 0) := by
  refine ⟨rfl, by decide, by decide, by decide⟩

/-- Claim C4 (amended): during a serial scan a marker-length chunk that
matches neither marker is accepted only before any block has been found
and only if its first byte is the zero byte; its leading and trailing
zero bytes are then stripped and the remaining bytes carried into the
next marker attempt.  In every other case (a block already found, or a
non-zero first byte) the scan fails with `FormatError`.  In particular
leading all-zero padding followed by a valid block parses successfully,
while a non-zero first byte that starts no marker causes `FormatError`. -/
theorem c4_padding_acceptance_amended :
    (∀ (m l v : Bool) (fuel : Nat) (blocks : List ReadBlock) (S : List Nat)
       (pos : Nat) (sk cl : Bool),
      4 ≤ S.length - pos →
      (S.drop pos).take 4 ≠ INDEX_HEADER.take 4 →
      (S.drop pos).take 4 ≠ BLOCK_MAGIC →
      read_blocks_serially_loop m l v (fuel + 1) blocks [] false ⟨S, pos, sk, cl⟩ =
        (if blocks.length ≠ 0 ∨ ((S.drop pos).take 4).headD 0 ≠ 0 then
          (.error .invalidBytes, ⟨S, pos + 4, sk, cl⟩)
        else read_blocks_serially_loop m l v fuel blocks
          (stripZeros ((S.drop pos).take 4)) false ⟨S, pos + 4, sk, cl⟩)) ∧
    (∀ (m l v : Bool) (k : Nat) (p T : List Nat) (sk cl : Bool),
      (T.take 4 = INDEX_HEADER.take 4 ∨ T.length < 4) →
      read_blocks_serially ⟨List.replicate k 0 ++ (blockBytes p ++ T), 0, sk, cl⟩
          m l v false =
        (.ok [expectedBlock k p m l v],
         ⟨List.replicate k 0 ++ (blockBytes p ++ T),
          k + 14 + p.length + min 4 T.length, sk, cl⟩)) ∧
    (∀ (m l v : Bool) (b : Nat) (rest : List Nat) (sk cl : Bool),
      b ≠ 0 → 3 ≤ rest.length →
      (b :: rest).take 4 ≠ BLOCK_MAGIC →
      (b :: rest).take 4 ≠ INDEX_HEADER.take 4 →
      read_blocks_serially ⟨b :: rest, 0, sk, cl⟩ m l v false =
        (.error .invalidBytes, ⟨b :: rest, 4, sk, cl⟩)) := by
  refine ⟨?_, ?_, ?_⟩
  · intro m l v fuel blocks S pos sk cl hfull hnotidx hnotmagic
    by_cases hcond : blocks.length ≠ 0 ∨ ((S.drop pos).take 4).headD 0 ≠ 0
    · rw [if_pos hcond,
        loop_step_invalid m l v fuel blocks S pos sk cl hfull hnotidx hnotmagic hcond]
    · rw [if_neg hcond]
      push_neg at hcond
      obtain ⟨hb0, hz⟩ := hcond
      obtain rfl : blocks = [] := List.length_eq_zero.mp hb0
      exact loop_step_padding m l v fuel S pos sk cl hfull hnotidx hnotmagic hz
  · intro m l v k p T sk cl hT
    have hlen : (List.replicate k 0 ++ (blockBytes p ++ T)).length =
        k + (14 + p.length) + T.length := by
      simp only [List.length_append, List.length_replicate, blockBytes_length]
      omega
    unfold read_blocks_serially
    show read_blocks_serially_loop m l v
      ((List.replicate k 0 ++ (blockBytes p ++ T)).length + 1) [] [] false
      ⟨List.replicate k 0 ++ (blockBytes p ++ T), 0, sk, cl⟩ = _
    have hp := padding_loop m l v p (List.replicate k 0 ++ (blockBytes p ++ T)) T sk cl k
      ((List.replicate k 0 ++ (blockBytes p ++ T)).length + 1) 0 (by simp) hT
      (by rw [hlen]; omega)
    rw [hp]
    simp
  · intro m l v b rest sk cl hb hlen hnm hni
    have h1 : ((b :: rest).drop 0).take 4 = (b :: rest).take 4 := rfl
    have hh : ((b :: rest).take 4).headD 0 = b := rfl
    unfold read_blocks_serially
    show read_blocks_serially_loop m l v ((b :: rest).length + 1) [] [] false
      ⟨b :: rest, 0, sk, cl⟩ = _
    rw [loop_step_invalid m l v (b :: rest).length [] (b :: rest) 0 sk cl
      (by simp only [List.length_cons, Nat.sub_zero]; omega)
      (by rw [h1]; exact hni) (by rw [h1]; exact hnm)
      (Or.inr (by rw [h1, hh]; exact hb))]

/-- Witness for C4 (amended): a non-matching chunk with non-zero first
byte is rejected both at the loop level and at the top level, and five
bytes of zero padding before a valid block parse successfully. -/
theorem c4_witness :
    (read_blocks_serially_loop false false false (0 + 1) [] [] false
        ⟨[9, 9, 9, 9], 0, true, false⟩ =
      (.error .invalidBytes, ⟨[9, 9, 9, 9], 4, true, false⟩)) ∧
    (read_blocks_serially ⟨List.replicate 5 0 ++ (blockBytes [7] ++ []), 0, true, false⟩
        false false false false =
      (.ok [expectedBlock 5 [7] false false false],
       ⟨List.replicate 5 0 ++ (blockBytes [7] ++ []), 5 + 14 + 1 + min 4 0,
        true, false⟩)) ∧
    (read_blocks_serially ⟨9 :: [9, 9, 9], 0, true, false⟩ false false false false =
      (.error .invalidBytes, ⟨9 :: [9, 9, 9], 4, true, false⟩)) := by
  refine ⟨?_, ?_, ?_⟩
  · rw [c4_padding_acceptance_amended.1 false false false 0 [] [9, 9, 9, 9] 0 true false
      (by decide) (by decide) (by decide)]
    rfl
  · exact c4_padding_acceptance_amended.2.1 false false false 5 [7] [] true false
      (Or.inr (by decide))
  · exact c4_padding_acceptance_amended.2.2 false false false 9 [9, 9, 9] true false
      (by decide) (by decide) (by decide) (by decide)

/-! ### Claims C6 and C9 -/

/-- Claim C6: when the serial scan meets a block whose header flags mark
it streamed, it stops immediately after appending that block's handle:
the returned sequence ends exactly at the streamed block and no handle is
constructed for any bytes after it. -/
theorem c6_streamed_block_ends_scan (m l v : Bool) (fuel : Nat)
    (blocks : List ReadBlock) (S : List Nat) (pos : Nat) (sk cl : Bool)
    (off doff : Nat) (h : BlockHeader) (d : BlockData) (fd2 : Fd)
    (hmagic : (S.drop pos).take 4 = BLOCK_MAGIC)
    (hrb : read_block ⟨S, pos + 4, sk, cl⟩ none m l = (.ok (off, h, doff, d), fd2))
    (hstreamed : h.flags &&& BLOCK_FLAG_STREAMED ≠ 0) :
    read_blocks_serially_loop m l v (fuel + 1) blocks [] false ⟨S, pos, sk, cl⟩ =
      (.ok (blocks ++ [⟨off, m, l, v, some h, some doff, some d, none⟩]), fd2) := by
  rw [loop_step_block m l v fuel blocks S pos sk cl off doff h d fd2 hmagic hrb,
    if_pos hstreamed]

/-- Witness for C6: a streamed block with trailing bytes yields exactly
one handle. -/
theorem c6_witness :
    read_blocks_serially_loop false false false (0 + 1) [] [] false
      ⟨[211, 66, 76, 75, 1, 0, 0, 0, 0, 0, 0, 0, 0, 6, 1, 2, 3], 0, true, false⟩ =
      (.ok [⟨4, false, false, false, some ⟨1, 0, 0, 0, 0, 6⟩, some 14,
        some (.bytes [1, 2, 3]), none⟩],
       ⟨[211, 66, 76, 75, 1, 0, 0, 0, 0, 0, 0, 0, 0, 6, 1, 2, 3], 17, true, false⟩) :=
  c6_streamed_block_ends_scan false false false 0 []
    [211, 66, 76, 75, 1, 0, 0, 0, 0, 0, 0, 0, 0, 6, 1, 2, 3] 0 true false
    4 14 ⟨1, 0, 0, 0, 0, 6⟩ (.bytes [1, 2, 3])
    ⟨[211, 66, 76, 75, 1, 0, 0, 0, 0, 0, 0, 0, 0, 6, 1, 2, 3], 17, true, false⟩
    (by decide) rfl (by decide)

/-- Claim C9: when the serial scan reaches end-of-stream with fewer than
a marker-length of bytes remaining, the scan terminates cleanly without
error and returns the handles found so far. -/
theorem c9_short_tail_clean_stop (m l v : Bool) (fuel : Nat)
    (blocks : List ReadBlock) (buff S : List Nat) (pos : Nat) (sk cl : Bool)
    (hb : buff.length < BLOCK_MAGIC.length)
    (hshort : S.length - pos < BLOCK_MAGIC.length - buff.length) :
    read_blocks_serially_loop m l v (fuel + 1) blocks buff false ⟨S, pos, sk, cl⟩ =
      (.ok blocks, ⟨S, pos + (S.length - pos), sk, cl⟩) :=
  loop_step_short m l v fuel blocks buff S pos sk cl hb hshort

/-- Witness for C9: two stray bytes at end-of-stream end the scan with
the one handle found so far and no error. -/
theorem c9_witness :
    read_blocks_serially_loop false false false (0 + 1)
      [⟨4, false, false, false, none, none, none, none⟩] [] false
      ⟨[211, 66], 0, true, false⟩ =
      (.ok [⟨4, false, false, false, none, none, none, none⟩],
       ⟨[211, 66], 2, true, false⟩) :=
  c9_short_tail_clean_stop false false false 0
    [⟨4, false, false, false, none, none, none, none⟩] [] [211, 66] 0 true false
    (by decide) (by decide)

/-! ### Claim C3 -/

/-- Counterexample to claim C3 as stated: when the Block Codec's read
fails (here, a truncated source), `load()` propagates the error without
restoring the position — after the call the cursor sits at 100, not at
the entry value 0. -/
theorem c3_counterexample :
    ((⟨100, false, false, false, none, none, none, none⟩ : ReadBlock).load true
      ⟨[], 0, true, false⟩ = (.error .formatError, ⟨[], 100, true, false⟩)) ∧
    (100 : Nat) ≠ 0 :=
  ⟨rfl, by decide⟩

/-- Claim C3 (amended): `load()` restores the Byte Source's position to
its entry value whenever it returns successfully (including the
already-loaded no-op); on the error path the position is not restored. -/
theorem c3_load_restores_position_on_success (blk blk' : ReadBlock) (alive : Bool)
    (fd fd' : Fd) (h : blk.load alive fd = (.ok blk', fd')) :
    fd'.pos = fd.pos := by
  unfold ReadBlock.load at h
  by_cases hl : blk.loaded = true
  · rw [if_pos hl] at h
    injection h with h1 h2
    rw [← h2]
  · rw [if_neg hl] at h
    by_cases hc : alive = false ∨ fd.closed = true
    · rw [if_pos hc] at h
      injection h with h1 h2
      exact absurd h1 (by simp)
    · rw [if_neg hc] at h
      rcases hrb : read_block fd (some blk.offset) blk.memmap blk.lazy_load with ⟨res, fd1⟩
      rw [hrb] at h
      cases res with
      | error e => simp at h
      | ok val =>
        obtain ⟨a, hh, doff, dd⟩ := val
        simp only [Prod.mk.injEq, Except.ok.injEq] at h
        obtain ⟨h1, h2⟩ := h
        rw [← h2]
        rfl

/-- Witness for C3 (amended): a successful load from a well-formed block
leaves the cursor where it was. -/
theorem c3_witness :
    ∃ (blk' : ReadBlock) (fd' : Fd),
      (⟨4, false, false, false, none, none, none, none⟩ : ReadBlock).load true
        ⟨blockBytes [7], 11, true, false⟩ = (.ok blk', fd') ∧ fd'.pos = 11 := by
  have hload : (⟨4, false, false, false, none, none, none, none⟩ : ReadBlock).load true
      ⟨blockBytes [7], 11, true, false⟩ =
      (.ok ⟨4, false, false, false, some (expectedHeader [7]), some 14,
        some (BlockData.bytes [7]), none⟩, ⟨blockBytes [7], 11, true, false⟩) := rfl
  exact ⟨_, _, hload, c3_load_restores_position_on_success _ _ _ _ _ hload⟩

/-! ### Claim C7 -/

/-- Counterexample to claim C7 as stated: an already-loaded handle whose
source is closed does not fail — `load()` is a no-op and returns
successfully even though the source reports closed. -/
theorem c7_counterexample :
    ((⟨4, false, true, false, some (expectedHeader [7]), some 14,
        some (BlockData.bytes [7]), none⟩ : ReadBlock).load true ⟨[], 0, true, true⟩ =
      (.ok ⟨4, false, true, false, some (expectedHeader [7]), some 14,
        some (BlockData.bytes [7]), none⟩, ⟨[], 0, true, true⟩)) ∧
    (⟨[], 0, true, true⟩ : Fd).closed = true :=
  ⟨rfl, rfl⟩

/-- Claim C7 (amended): for a handle that is not yet loaded, if the
source reference is dead or the source reports closed, `load()` fails
with `ClosedResourceError` before performing any seek, tell or read on
the source (the source value is returned untouched, and no new handle
state is produced). -/
theorem c7_closed_source_unloaded_fails (blk : ReadBlock) (alive : Bool) (fd : Fd)
    (hnl : blk.loaded = false)
    (hdead : alive = false ∨ fd.closed = true) :
    blk.load alive fd = (.error .closedFile, fd) := by
  unfold ReadBlock.load
  rw [if_neg (by rw [hnl]; simp), if_pos hdead]

/-- Witness for C7 (amended). -/
theorem c7_witness :
    (⟨4, false, true, false, none, none, none, none⟩ : ReadBlock).load true
      ⟨[1, 2, 3], 0, true, true⟩ = (.error .closedFile, ⟨[1, 2, 3], 0, true, true⟩) :=
  c7_closed_source_unloaded_fails ⟨4, false, true, false, none, none, none, none⟩ true
    ⟨[1, 2, 3], 0, true, true⟩ rfl (Or.inr rfl)

/-! ### Claim C5 -/

theorem load_ok_state (blk blkL : ReadBlock) (alive : Bool) (fd fdm : Fd)
    (h : blk.load alive fd = (.ok blkL, fdm)) :
    blkL.loaded = true ∧ blkL.validate_checksum = blk.validate_checksum := by
  unfold ReadBlock.load at h
  by_cases hl : blk.loaded = true
  · rw [if_pos hl] at h
    injection h with h1 h2
    injection h1 with h1
    subst h1
    exact ⟨hl, rfl⟩
  · rw [if_neg hl] at h
    by_cases hc : alive = false ∨ fd.closed = true
    · rw [if_pos hc] at h
      injection h with h1 h2
      exact absurd h1 (by simp)
    · rw [if_neg hc] at h
      rcases hrb : read_block fd (some blk.offset) blk.memmap blk.lazy_load with ⟨res, fd1⟩
      rw [hrb] at h
      cases res with
      | error e => simp at h
      | ok val =>
        obtain ⟨a, hh, doff, dd⟩ := val
        simp only [Prod.mk.injEq, Except.ok.injEq] at h
        obtain ⟨h1, h2⟩ := h
        rw [← h1]
        exact ⟨rfl, rfl⟩

/-- Claim C5: for a handle with checksum validation enabled, the payload
accessor compares the digest of the resolved bytes with the header's
checksum, failing with `IntegrityError` on mismatch; after the first
successful comparison the pending flag is cleared permanently, and any
later payload access on that handle returns the same bytes without
rechecking anything (it does not even touch the source). -/
theorem c5_checksum_validated_once :
    (∀ (blk : ReadBlock) (alive : Bool) (fd : Fd) (d : List Nat)
       (blk' : ReadBlock) (fd' : Fd),
      blk.validate_checksum = true →
      blk.getData alive fd = (.ok (d, blk'), fd') →
      blk'.validate_checksum = false ∧
      (∃ h, blk'.headerOpt = some h ∧ calculate_block_checksum d = h.checksum) ∧
      (∀ (alive2 : Bool) (fd2 : Fd), blk'.getData alive2 fd2 = (.ok (d, blk'), fd2))) ∧
    (∀ (blk : ReadBlock) (alive : Bool) (fd : Fd) (h : BlockHeader),
      blk.validate_checksum = true →
      blk.loaded = true →
      blk.headerOpt = some h →
      calculate_block_checksum blk.resolvedData ≠ h.checksum →
      blk.getData alive fd = (.error .checksumMismatch, fd)) := by
  constructor
  · intro blk alive fd d blk' fd' hv hgd
    unfold ReadBlock.getData at hgd
    rcases hld : blk.load alive fd with ⟨res, fdm⟩
    rw [hld] at hgd
    cases res with
    | error e => simp at hgd
    | ok blkL =>
      obtain ⟨hLload, hLv⟩ := load_ok_state blk blkL alive fd fdm hld
      have hvL : blkL.validate_checksum = true := by rw [hLv]; exact hv
      simp only [] at hgd
      rw [hvL] at hgd
      simp only [if_true] at hgd
      rcases hH : blkL.headerOpt with _ | hh
      · rw [hH] at hgd
        simp at hgd
      · rw [hH] at hgd
        simp only [] at hgd
        by_cases hck : calculate_block_checksum blkL.resolvedData ≠ hh.checksum
        · rw [if_pos hck] at hgd
          simp at hgd
        · rw [if_neg hck] at hgd
          push_neg at hck
          simp only [Prod.mk.injEq, Except.ok.injEq] at hgd
          obtain ⟨⟨hd, hblk'⟩, hfd⟩ := hgd
          subst hd
          subst hblk'
          subst hfd
          refine ⟨rfl, ⟨hh, rfl, hck⟩, ?_⟩
          intro alive2 fd2
          unfold ReadBlock.getData
          rw [load_of_loaded ⟨blkL.offset, blkL.memmap, blkL.lazy_load, false,
            some hh, blkL.dataOffset, blkL.dataOpt, blkL.cachedData⟩ alive2 fd2 hLload]
          rfl
  · intro blk alive fd h hv hl hh hne
    unfold ReadBlock.getData
    rw [load_of_loaded blk alive fd hl]
    simp [hv, hh, hne]

/-- Witness for C5: a handle with a matching checksum is validated once,
the flag is cleared, and later accesses repeat nothing; a handle with a
wrong stored checksum fails with `IntegrityError`. -/
theorem c5_witness :
    ((⟨4, false, false, false, some ⟨0, 0, 2, 2, 2, 15⟩, some 14,
        some (BlockData.bytes [7, 8]), none⟩ : ReadBlock).validate_checksum = false ∧
     (∃ h, (⟨4, false, false, false, some ⟨0, 0, 2, 2, 2, 15⟩, some 14,
        some (BlockData.bytes [7, 8]), none⟩ : ReadBlock).headerOpt = some h ∧
        calculate_block_checksum [7, 8] = h.checksum) ∧
     (∀ (alive2 : Bool) (fd2 : Fd),
       (⟨4, false, false, false, some ⟨0, 0, 2, 2, 2, 15⟩, some 14,
         some (BlockData.bytes [7, 8]), none⟩ : ReadBlock).getData alive2 fd2 =
       (.ok ([7, 8], ⟨4, false, false, false, some ⟨0, 0, 2, 2, 2, 15⟩, some 14,
         some (BlockData.bytes [7, 8]), none⟩), fd2))) ∧
    ((⟨4, false, false, true, some ⟨0, 0, 2, 2, 2, 99⟩, some 14,
        some (BlockData.bytes [7, 8]), none⟩ : ReadBlock).getData true
        ⟨[], 0, true, false⟩ = (.error .checksumMismatch, ⟨[], 0, true, false⟩)) :=
  ⟨c5_checksum_validated_once.1
    ⟨4, false, false, true, some ⟨0, 0, 2, 2, 2, 15⟩, some 14,
     some (BlockData.bytes [7, 8]), none⟩ true ⟨[], 0, true, false⟩ [7, 8]
    ⟨4, false, false, false, some ⟨0, 0, 2, 2, 2, 15⟩, some 14,
     some (BlockData.bytes [7, 8]), none⟩ ⟨[], 0, true, false⟩ rfl rfl,
   c5_checksum_validated_once.2
    ⟨4, false, false, true, some ⟨0, 0, 2, 2, 2, 99⟩, some 14,
     some (BlockData.bytes [7, 8]), none⟩ true ⟨[], 0, true, false⟩
    ⟨0, 0, 2, 2, 2, 99⟩ rfl rfl rfl (by decide)⟩

/-! ### Claim C10 -/

/-- Claim C10: when the parsed Block Index is empty, the spot check of
`read_blocks` subscripts the first entry of the empty index, raising an
`IndexError`-class failure that is neither an `OSError` nor a
`ValueError`, so `read_blocks` fails instead of falling back to the
Serial Scanner or returning an empty sequence. -/
theorem c10_empty_index_raises :
    (read_blocks ⟨INDEX_HEADER ++ [0], 0, true, false⟩ false true false false =
      (.error .indexError, ⟨INDEX_HEADER ++ [0], 18, true, false⟩)) ∧
    Err.isOSError .indexError = false ∧
    Err.isValueError .indexError = false :=
  ⟨rfl, rfl, rfl⟩

/-! ### Claim C1 -/

/-- Claim C1 (code bug): on the spot-check-failure fallback path,
`read_blocks` passes only four positional arguments to
`read_blocks_serially`, so `after_magic` is received in the
`validate_checksums` position and the original `validate_checksums=True`
is silently dropped.  On a stream whose index points at non-marker bytes,
the fallback returns a handle with checksum validation disabled, while
running the Serial Scanner directly with the original flags returns the
same handle with checksum validation still enabled.  The stream is rolled
back before the fallback, so offsets, header and payload agree. -/
theorem c1_fallback_drops_validate_checksums :
    (read_blocks ⟨blockBytes [7] ++ (INDEX_HEADER ++ [1, 0, 1]), 0, true, false⟩
        false true true false =
      (.ok [⟨4, false, true, false, some ⟨0, 0, 1, 1, 1, 7⟩, some 14,
        some (.deferredBytes [7]), none⟩],
       ⟨blockBytes [7] ++ (INDEX_HEADER ++ [1, 0, 1]), 19, true, false⟩)) ∧
    (read_blocks_serially ⟨blockBytes [7] ++ (INDEX_HEADER ++ [1, 0, 1]), 0, true, false⟩
        false true true false =
      (.ok [⟨4, false, true, true, some ⟨0, 0, 1, 1, 1, 7⟩, some 14,
        some (.deferredBytes [7]), none⟩],
       ⟨blockBytes [7] ++ (INDEX_HEADER ++ [1, 0, 1]), 19, true, false⟩)) :=
  ⟨rfl, rfl⟩
